import Mathlib

/-!
Shallow embedding of the CppProlog core (term model, substitution,
unification, arithmetic built-ins, clause database, SLD resolver) from
`src/prolog/term.h`, `unification.cpp`, `builtin_predicates.cpp`,
`database.cpp`, `clause.cpp`, `resolver.cpp`.

Modelling conventions:
- `std::shared_ptr<Term>` trees become an inductive `Term`; `clone` is the
  identity on values.
- `Substitution` (`unordered_map<string, TermPtr>`) becomes an association
  list `List (String × Term)`; `subst[k] = v` is overwrite-or-append.  All
  map operations used by the source are order-independent, so the list
  order is only a representation choice.
- C++ recursion that can diverge (dereference chains, `applySubstitution`,
  `unifyInternal`, `evaluateArithmeticExpression`, the resolver) is given
  an explicit fuel argument; `none` means the C++ code would not return
  (unbounded recursion).  For `applyN` fuel is consumed exactly where the
  C++ stack can grow without bound: when a bound variable is replaced by
  its image.  For the other functions every recursive call consumes fuel.
- `double` values are modelled as exact rationals (the `Q` structure).
  Every arithmetic fact proved below evaluates only small dyadic
  rationals, on which IEEE-754 double arithmetic is exact, so the model
  and the C++ code agree on them.
- `int64_t` is modelled as `Int` (no claim below exercises overflow).
- `rand()` (used for clause-renaming suffixes, never seeded) is modelled
  as a stream `Nat → Nat` read at a cursor carried in the resolver state;
  the C++ global PRNG state corresponds to the cursor persisting across
  `solve` calls.
- `write/1` and `nl/0` succeed once; their stdout effect is dropped.
-/

namespace CppProlog

/-- Exact rational values modelling C++ `double`: an explicit
numerator/denominator pair (denominator kept positive, fractions not
reduced), with exact field arithmetic.  Every double value this
development evaluates is a small dyadic rational, on which IEEE-754
double arithmetic is exact, so the model and the C++ code agree on them.
An explicit pair is used (rather than `Rat`) to keep all operations
kernel-computable. -/
structure Q where
  num : Int
  den : Int
  deriving DecidableEq

/-- The rational `n / 1`. -/
def Qi (n : Int) : Q := ⟨n, 1⟩

/-- Value equality of rationals (the `==` of doubles): cross-multiplied
comparison, insensitive to the representation. -/
def qeq (a b : Q) : Bool := a.num * b.den == b.num * a.den

/-- Value order on rationals (denominators are positive). -/
def qlt (a b : Q) : Bool := decide (a.num * b.den < b.num * a.den)

/-- Exact addition. -/
def qadd (a b : Q) : Q := ⟨a.num * b.den + b.num * a.den, a.den * b.den⟩

/-- Exact subtraction. -/
def qsub (a b : Q) : Q := ⟨a.num * b.den - b.num * a.den, a.den * b.den⟩

/-- Exact multiplication. -/
def qmul (a b : Q) : Q := ⟨a.num * b.num, a.den * b.den⟩

/-- Exact division (the divisor is nonzero at every use, guarded by the
zero tests of the source); the sign is moved into the numerator to keep
the denominator positive. -/
def qdiv (a b : Q) : Q :=
  if b.num < 0 then ⟨-(a.num * b.den), a.den * -b.num⟩
  else ⟨a.num * b.den, a.den * b.num⟩

/-- Negation. -/
def qneg (a : Q) : Q := ⟨-a.num, a.den⟩

/-- Absolute value (`std::abs`). -/
def qabs (a : Q) : Q := ⟨|a.num|, a.den⟩

/-- `std::floor` composed with the division, for `//`. -/
def qfloor (a : Q) : Int := Int.fdiv a.num a.den

/-- Truncation toward zero, the rounding used by `std::fmod`. -/
def qtrunc (a : Q) : Int := Int.tdiv a.num a.den

/-- `std::fmod` on the rational model of doubles. -/
def qfmod (x y : Q) : Q := qsub x (qmul y (Qi (qtrunc (qdiv x y))))

/-- Term variants, from the `TermType` enum in `term.h`. -/
inductive TType where
  | ATOM | VARIABLE | COMPOUND | INTEGER | FLOAT | STRING | LIST
  deriving DecidableEq

/-- The term model of `term.h`: Atom, Variable, Integer, Float, String,
Compound, List (with optional tail). -/
inductive Term where
  | atom (name : String)
  | var (name : String)
  | int (value : Int)
  | float (value : Q)
  | str (value : String)
  | compound (functor : String) (args : List Term)
  | list (elements : List Term) (tail : Option Term)

/-- `Term::type()`. -/
def Term.ttype : Term → TType
  | .atom _ => .ATOM
  | .var _ => .VARIABLE
  | .int _ => .INTEGER
  | .float _ => .FLOAT
  | .str _ => .STRING
  | .compound _ _ => .COMPOUND
  | .list _ _ => .LIST

/-- `Substitution` from `term.h`: a map from variable name to term,
represented as an association list. -/
abbrev Subst := List (String × Term)

/-- Map lookup (`subst.find(name)`). -/
def slookup (s : Subst) (k : String) : Option Term :=
  (s.find? (fun p => p.1 == k)).map (·.2)

/-- Map write (`subst[name] = term`): overwrite if present, append if not. -/
def supdate (s : Subst) (k : String) (v : Term) : Subst :=
  if s.any (fun p => p.1 == k) then
    s.map (fun p => if p.1 == k then (k, v) else p)
  else s ++ [(k, v)]

/-- The key set of a substitution. -/
def sKeys (s : Subst) : List String := s.map (·.1)

/-- `Unification::dereference`: follow the binding chain of a variable
until an unbound variable or a non-variable term.  Fuel bounds the chain
length; `none` models a diverging chain. -/
def derefN (fuel : Nat) (s : Subst) (t : Term) : Option Term :=
  match t with
  | .var n =>
    match slookup s n with
    | some u =>
      match fuel with
      | 0 => none
      | f + 1 => derefN f s u
    | none => some (.var n)
  | _ => some t

mutual

/-- `Unification::applySubstitution`: structurally replace bound variables
by the full application of the substitution to their images.  Fuel is
consumed on every recursive call (each C++ stack frame); `none` means the
C++ recursion exceeds any bound, i.e. diverges on a cyclic store. -/
def applyN (fuel : Nat) (s : Subst) (t : Term) : Option Term :=
  match fuel with
  | 0 => none
  | f + 1 =>
    match t with
    | .var n =>
      match slookup s n with
      | some u => applyN f s u
      | none => some (.var n)
    | .compound fn args => (applyListN f s args).map (Term.compound fn)
    | .list es tl =>
      match tl with
      | some u =>
        match applyListN f s es, applyN f s u with
        | some es2, some u2 => some (.list es2 (some u2))
        | _, _ => none
      | none => (applyListN f s es).map (fun es2 => Term.list es2 none)
    | u => some u

/-- Pointwise `applyN` over argument lists. -/
def applyListN (fuel : Nat) (s : Subst) (ts : List Term) : Option (List Term) :=
  match fuel with
  | 0 => none
  | f + 1 =>
    match ts with
    | [] => some []
    | x :: xs =>
      match applyN f s x, applyListN f s xs with
      | some y, some ys => some (y :: ys)
      | _, _ => none

end

mutual

/-- `Unification::occursCheck`: purely syntactic occurrence of a variable
name in a term.  Note the C++ function takes no substitution: variables
bound inside the candidate term are not dereferenced. -/
def occursCheckB (v : String) : Term → Bool
  | .var n => n == v
  | .compound _ args => occursListB v args
  | .list es tl =>
    occursListB v es || (match tl with | some u => occursCheckB v u | none => false)
  | _ => false

/-- Pointwise `occursCheckB` over a list. -/
def occursListB (v : String) : List Term → Bool
  | [] => false
  | x :: xs => occursCheckB v x || occursListB v xs

end

mutual

/-- `Unification::unifyInternal`: Robinson unification mutating the
substitution in place.  Returns `(succeeded, final substitution)`; on
failure the substitution keeps any bindings added before the failure, as
in the C++ code.  Fuel is consumed on every recursive call; `none` models
divergence. -/
def unifyN (fuel : Nat) (t1 t2 : Term) (s : Subst) : Option (Bool × Subst) :=
  match fuel with
  | 0 => none
  | f + 1 =>
    match derefN (f + 1) s t1, derefN (f + 1) s t2 with
    | some d1, some d2 =>
      match d1, d2 with
      | .var n1, .var n2 =>
        if n1 = n2 then some (true, s)
        else some (true, supdate s n1 (.var n2))
      | .var n1, _ =>
        if occursCheckB n1 d2 then some (false, s)
        else some (true, supdate s n1 d2)
      | _, .var n2 =>
        if occursCheckB n2 d1 then some (false, s)
        else some (true, supdate s n2 d1)
      | .atom a, .atom b => some (decide (a = b), s)
      | .int a, .int b => some (decide (a = b), s)
      | .float a, .float b => some (qeq a b, s)
      | .str a, .str b => some (decide (a = b), s)
      | .compound f1 a1, .compound f2 a2 =>
        if f1 = f2 ∧ a1.length = a2.length then unifyArgsN f a1 a2 s
        else some (false, s)
      | .list e1 tl1, .list e2 tl2 =>
        if e1.length = e2.length then
          match unifyArgsN f e1 e2 s with
          | none => none
          | some (ok, s1) =>
            if ok then
              match tl1, tl2 with
              | some x, some y => unifyN f x y s1
              | none, none => some (true, s1)
              | _, _ => some (false, s1)
            else some (false, s1)
        else some (false, s)
      | _, _ => some (false, s)
    | _, _ => none

/-- Pairwise unification threading the mutated substitution, stopping at
the first failing pair (as the C++ argument loops do). -/
def unifyArgsN (fuel : Nat) (xs ys : List Term) (s : Subst) : Option (Bool × Subst) :=
  match fuel with
  | 0 => none
  | f + 1 =>
    match xs, ys with
    | [], [] => some (true, s)
    | x :: xs2, y :: ys2 =>
      match unifyN f x y s with
      | none => none
      | some (ok, s1) =>
        if ok then unifyArgsN f xs2 ys2 s1 else some (false, s1)
    | _, _ => some (false, s)

end

/-- `Unification::compose(s1, s2)`: start from `s1`; for every `(v, t)` in
`s2` write `v ↦ apply(t, s1)` (overwriting any existing binding of `v`);
then apply `s2` to every value of the result. -/
def composeN (fuel : Nat) (s1 s2 : Subst) : Option Subst := do
  let step1 ← s2.foldlM (fun acc p => do
    let v ← applyN fuel s1 p.2
    pure (supdate acc p.1 v)) s1
  step1.mapM (fun p => do
    let v ← applyN fuel s2 p.2
    pure (p.1, v))

mutual

/-- `Term::equals`: structural equality (used by `==`/`\==`). -/
def beqT : Term → Term → Bool
  | .atom a, .atom b => a == b
  | .var a, .var b => a == b
  | .int a, .int b => a == b
  | .float a, .float b => qeq a b
  | .str a, .str b => a == b
  | .compound f1 a1, .compound f2 a2 => f1 == f2 && beqL a1 a2
  | .list e1 t1, .list e2 t2 =>
    beqL e1 e2 &&
      (match t1, t2 with
       | some x, some y => beqT x y
       | none, none => true
       | _, _ => false)
  | _, _ => false

/-- Pointwise `beqT` (mirrors the element loops of `Compound::equals` and
`List::equals`, including the size checks). -/
def beqL : List Term → List Term → Bool
  | [], [] => true
  | x :: xs, y :: ys => beqT x y && beqL xs ys
  | _, _ => false

end

mutual

/-- `BuiltinPredicates::isGround`. -/
def isGroundB : Term → Bool
  | .var _ => false
  | .atom _ => true
  | .int _ => true
  | .float _ => true
  | .str _ => true
  | .compound _ args => isGroundL args
  | .list es tl =>
    isGroundL es && (match tl with | some u => isGroundB u | none => true)

/-- All-elements `isGroundB`. -/
def isGroundL : List Term → Bool
  | [] => true
  | x :: xs => isGroundB x && isGroundL xs

end

/-- `BuiltinPredicates::isNumber`. -/
def isNumberB : Term → Bool
  | .int _ => true
  | .float _ => true
  | _ => false

/-- `BuiltinPredicates::getNumericValue` (0 for non-numbers, as in C++). -/
def numValue : Term → Q
  | .int v => Qi v
  | .float v => v
  | _ => Qi 0

/-- `BuiltinPredicates::getTermOrder`. -/
def getTermOrder : Term → Int
  | .var _ => 1
  | .int _ => 2
  | .float _ => 2
  | .atom _ => 3
  | .str _ => 4
  | .compound _ _ => 5
  | .list _ _ => 6

/-- Sign of `std::string::compare` as an Int. -/
def strCmp (a b : String) : Int :=
  match compare a b with
  | .lt => -1
  | .eq => 0
  | .gt => 1

mutual

/-- `BuiltinPredicates::compareTerms` (the standard order used by
`<`, `>`, `=<`, `>=`).  Fuel bounds recursion depth. -/
def cmpN (fuel : Nat) (l r : Term) : Option Int :=
  match fuel with
  | 0 => none
  | f + 1 =>
    let lo := getTermOrder l
    let ro := getTermOrder r
    if lo ≠ ro then some (lo - ro)
    else
      match l, r with
      | .var a, .var b => some (strCmp a b)
      | .int a, .int b => some (if a < b then -1 else if b < a then 1 else 0)
      | .float a, .float b => some (if qlt a b then -1 else if qlt b a then 1 else 0)
      | .atom a, .atom b => some (strCmp a b)
      | .str a, .str b => some (strCmp a b)
      | .compound f1 a1, .compound f2 a2 =>
        let fc := strCmp f1 f2
        if fc ≠ 0 then some fc
        else if a1.length ≠ a2.length then
          some (if a1.length < a2.length then -1 else 1)
        else cmpArgsN f a1 a2
      | .list e1 t1, .list e2 t2 => do
        let fwd ← lexLtN f e1 e2
        if fwd then some (-1)
        else do
          let bwd ← lexLtN f e2 e1
          if bwd then some 1
          else
            match t1, t2 with
            | some x, some y => cmpN f x y
            | some _, none => some 1
            | none, some _ => some (-1)
            | none, none => some 0
      | _, _ => some 0

/-- Argument loop of the Compound comparator: first nonzero comparison. -/
def cmpArgsN (fuel : Nat) (xs ys : List Term) : Option Int :=
  match fuel with
  | 0 => none
  | f + 1 =>
    match xs, ys with
    | x :: xs2, y :: ys2 => do
      let c ← cmpN f x y
      if c ≠ 0 then some c else cmpArgsN f xs2 ys2
    | _, _ => some 0

/-- `std::lexicographical_compare` over terms with comparator
`compareTerms(a, b) < 0`, as used by the List comparator. -/
def lexLtN (fuel : Nat) (xs ys : List Term) : Option Bool :=
  match fuel with
  | 0 => none
  | f + 1 =>
    match xs, ys with
    | [], [] => some false
    | [], _ :: _ => some true
    | _ :: _, [] => some false
    | x :: xs2, y :: ys2 => do
      let c1 ← cmpN f x y
      if c1 < 0 then some true
      else do
        let c2 ← cmpN f y x
        if c2 < 0 then some false else lexLtN f xs2 ys2

end

mutual

/-- `Resolver::collectVariablesFromTerm` (also the body of
`Clause::collectVariables`): first-occurrence order, duplicates removed. -/
def collectVars (t : Term) (acc : List String) : List String :=
  match t with
  | .var n => if acc.contains n then acc else acc ++ [n]
  | .compound _ args => collectVarsL args acc
  | .list es tl =>
    let acc2 := collectVarsL es acc
    match tl with
    | some u => collectVars u acc2
    | none => acc2
  | _ => acc

/-- Left-to-right `collectVars` over a list. -/
def collectVarsL (ts : List Term) (acc : List String) : List String :=
  match ts with
  | [] => acc
  | x :: xs => collectVarsL xs (collectVars x acc)

end

mutual

/-- The term renamer of `Clause::rename`: append `suffix` to every
variable name (the memo map in the C++ code is the identity extension of
exactly this function, so sharing is preserved trivially). -/
def renameTerm (suffix : String) : Term → Term
  | .var n => .var (n ++ suffix)
  | .compound fn args => .compound fn (renameTermL suffix args)
  | .list es tl =>
    .list (renameTermL suffix es)
      (match tl with | some u => some (renameTerm suffix u) | none => none)
  | t => t

/-- Pointwise `renameTerm`. -/
def renameTermL (suffix : String) : List Term → List Term
  | [] => []
  | x :: xs => renameTerm suffix x :: renameTermL suffix xs

end

/-- `Clause` from `clause.h`: a head term and a body of goal terms. -/
structure Clause where
  head : Term
  body : List Term

/-- `Clause::rename`. -/
def renameClause (c : Clause) (suffix : String) : Clause :=
  { head := renameTerm suffix c.head, body := renameTermL suffix c.body }

/-- `BuiltinPredicates::evaluateArithmeticExpression`.  The outer `Option`
is the fuel/divergence channel; the inner `Option` is the C++
`std::optional<double>` result (`none` = evaluation failure).  The double
arithmetic is modelled by the exact rationals `Q`. -/
def evalN (fuel : Nat) (b : Subst) (expr : Term) : Option (Option Q) :=
  match fuel with
  | 0 => none
  | f + 1 =>
    match applyN (f + 1) b expr with
    | none => none
    | some t =>
      if isNumberB t then some (some (numValue t))
      else
        match t with
        | .compound fn args =>
          match args with
          | [a1, a2] =>
            match evalN f b a1, evalN f b a2 with
            | none, _ => none
            | _, none => none
            | some l, some r =>
              match l, r with
              | some lv, some rv =>
                if fn = "+" then some (some (qadd lv rv))
                else if fn = "-" then some (some (qsub lv rv))
                else if fn = "*" then some (some (qmul lv rv))
                else if fn = "/" then
                  if qeq rv (Qi 0) then some none else some (some (qdiv lv rv))
                else if fn = "//" then
                  if qeq rv (Qi 0) then some none else some (some (Qi (qfloor (qdiv lv rv))))
                else if fn = "mod" then
                  if qeq rv (Qi 0) then some none else some (some (qfmod lv rv))
                else some none
              | _, _ => some none
          | [a1] =>
            match evalN f b a1 with
            | none => none
            | some v =>
              match v with
              | some vv =>
                if fn = "-" then some (some (qneg vv))
                else if fn = "abs" then some (some (qabs vv))
                else some none
              | none => some none
          | _ => some none
        | _ => some none

/-- The branch of `evalN` below the initial substitution (the body of the
C++ evaluator after `applySubstitution` returned `t`), shared so that the
fuel lemmas can name it. -/
def evalBody (f : Nat) (b : Subst) (t : Term) : Option (Option Q) :=
  if isNumberB t then some (some (numValue t))
  else
    match t with
    | .compound fn args =>
      match args with
      | [a1, a2] =>
        match evalN f b a1, evalN f b a2 with
        | none, _ => none
        | _, none => none
        | some l, some r =>
          match l, r with
          | some lv, some rv =>
            if fn = "+" then some (some (qadd lv rv))
            else if fn = "-" then some (some (qsub lv rv))
            else if fn = "*" then some (some (qmul lv rv))
            else if fn = "/" then
              if qeq rv (Qi 0) then some none else some (some (qdiv lv rv))
            else if fn = "//" then
              if qeq rv (Qi 0) then some none else some (some (Qi (qfloor (qdiv lv rv))))
            else if fn = "mod" then
              if qeq rv (Qi 0) then some none else some (some (qfmod lv rv))
            else some none
          | _, _ => some none
      | [a1] =>
        match evalN f b a1 with
        | none => none
        | some v =>
          match v with
          | some vv =>
            if fn = "-" then some (some (qneg vv))
            else if fn = "abs" then some (some (qabs vv))
            else some none
          | none => some none
      | _ => some none
    | _ => some none

/-- The number term built by `BuiltinPredicates::unifyWithNumber`: Integer
when the double value is integral (`std::floor(v) == v`) and within the
int64 window (the upper bound is `(double)INT64_MAX`, which rounds to
`2^63`), Float otherwise. -/
def mkNumberTerm (q : Q) : Term :=
  if q.num % q.den = 0 ∧ -(2 ^ 63) * q.den ≤ q.num ∧ q.num ≤ 2 ^ 63 * q.den then
    .int (Int.tdiv q.num q.den)
  else .float q

/-- `BuiltinPredicates::unifyWithNumber` (without the final
`has_value` projection: the mutated substitution is kept, as the C++
caller keeps its reference). -/
def unifyWithNumberN (fuel : Nat) (t : Term) (q : Q) (s : Subst) :
    Option (Bool × Subst) :=
  unifyN fuel t (mkNumberTerm q) s

mutual

/-- Syntactic occurrence of any Variable node (used to state claim C9:
after full substitution, any remaining variable is unbound). -/
def containsVarB : Term → Bool
  | .var _ => true
  | .compound _ args => containsVarL args
  | .list es tl =>
    containsVarL es || (match tl with | some u => containsVarB u | none => false)
  | _ => false

/-- Any-element `containsVarB`. -/
def containsVarL : List Term → Bool
  | [] => false
  | x :: xs => containsVarB x || containsVarL xs

end

mutual

/-- Does the expression contain a `/`, `//` or `mod` node whose second
operand evaluates (at fuel `f0`, under `b`) to zero?  This is the
zero-divisor condition of claim C9, stated on the term structure the
evaluator walks. -/
def hasZeroDivB (f0 : Nat) (b : Subst) : Term → Bool
  | .compound fn args =>
    (decide (fn = "/" ∨ fn = "//" ∨ fn = "mod") &&
      (match args with
       | [_, a2] =>
         match evalN f0 b a2 with
         | some (some q) => qeq q (Qi 0)
         | _ => false
       | _ => false)) || hasZeroDivL f0 b args
  | .list es tl =>
    hasZeroDivL f0 b es ||
      (match tl with | some u => hasZeroDivB f0 b u | none => false)
  | _ => false

/-- Any-element `hasZeroDivB`. -/
def hasZeroDivL (f0 : Nat) (b : Subst) : List Term → Bool
  | [] => false
  | x :: xs => hasZeroDivB f0 b x || hasZeroDivL f0 b xs

end

/-- The mutable resolver/builtin bookkeeping threaded through the model:
`solutions` is what the collecting callback of `Resolver::solve` has
accumulated; `termination` is `termination_requested_`; `counter` is the
read position in the `rand()` stream; `result` models the local `result`
variable of the active built-in dispatch (saved and restored around
nested dispatches, since in C++ each is a distinct stack local); `flag`
models the local `goal_succeeded` of the active `\+` test likewise. -/
structure RState where
  solutions : List Subst
  termination : Bool
  counter : Nat
  result : Int
  flag : Bool

/-- A built-in continuation: receives the solution substitution and the
threaded state, returns continue? plus the updated state (`none` =
divergence inside the continuation). -/
abbrev Cont := Subst → RState → Option (Bool × RState)

/-- `BuiltinPredicates::makeKey` / `Database::makeKey`. -/
def makeKey (f : String) (a : Nat) : String :=
  f ++ "/" ++ toString a

/-- The keys registered by `BuiltinPredicates::registerBuiltins`. -/
def builtinKeys : List String :=
  ["is/2", "+/3", "-/3", "*/3", "//3",
   "=/2", "\\=/2", "==/2", "\\==/2", "</2", ">/2", "=</2", ">=/2",
   "append/3", "member/2", "length/2",
   "var/1", "nonvar/1", "atom/1", "number/1", "integer/1", "float/1",
   "compound/1", "ground/1",
   "!/0", "fail/0", "true/0", "\\+/1",
   "write/1", "nl/0"]

/-- `BuiltinPredicates::isBuiltin`. -/
def isBuiltin (f : String) (a : Nat) : Bool :=
  builtinKeys.contains (makeKey f a)

/-- Is the term a Variable node. -/
def isVarB : Term → Bool
  | .var _ => true
  | _ => false

/-- `BuiltinPredicates::is` (the `is/2` handler). -/
def isH (fuel : Nat) (args : List Term) (b : Subst) (k : Cont) (st : RState) :
    Option (Bool × RState) :=
  match args with
  | [a1, a2] =>
    match applyN fuel b a1, applyN fuel b a2 with
    | some left, some right =>
      match evalN fuel b right with
      | none => none
      | some none => some (false, st)
      | some (some q) =>
        match unifyWithNumberN fuel left q b with
        | none => none
        | some (ok, b2) => if ok then k b2 st else some (false, st)
    | _, _ => none
  | _ => some (false, st)

/-- `BuiltinPredicates::add` (`+/3`). -/
def addH (fuel : Nat) (args : List Term) (b : Subst) (k : Cont) (st : RState) :
    Option (Bool × RState) :=
  match args with
  | [a1, a2, a3] =>
    match applyN fuel b a1, applyN fuel b a2, applyN fuel b a3 with
    | some x, some y, some res =>
      if isNumberB x && isNumberB y then
        match unifyWithNumberN fuel res (qadd (numValue x) (numValue y)) b with
        | none => none
        | some (ok, b2) => if ok then k b2 st else some (false, st)
      else some (false, st)
    | _, _, _ => none
  | _ => some (false, st)

/-- `BuiltinPredicates::subtract` (the binary minus handler, arity 3). -/
def subtractH (fuel : Nat) (args : List Term) (b : Subst) (k : Cont) (st : RState) :
    Option (Bool × RState) :=
  match args with
  | [a1, a2, a3] =>
    match applyN fuel b a1, applyN fuel b a2, applyN fuel b a3 with
    | some x, some y, some res =>
      if isNumberB x && isNumberB y then
        match unifyWithNumberN fuel res (qsub (numValue x) (numValue y)) b with
        | none => none
        | some (ok, b2) => if ok then k b2 st else some (false, st)
      else some (false, st)
    | _, _, _ => none
  | _ => some (false, st)

/-- `BuiltinPredicates::multiply` (`*/3`). -/
def multiplyH (fuel : Nat) (args : List Term) (b : Subst) (k : Cont) (st : RState) :
    Option (Bool × RState) :=
  match args with
  | [a1, a2, a3] =>
    match applyN fuel b a1, applyN fuel b a2, applyN fuel b a3 with
    | some x, some y, some res =>
      if isNumberB x && isNumberB y then
        match unifyWithNumberN fuel res (qmul (numValue x) (numValue y)) b with
        | none => none
        | some (ok, b2) => if ok then k b2 st else some (false, st)
      else some (false, st)
    | _, _, _ => none
  | _ => some (false, st)

/-- `BuiltinPredicates::divide` (`//3`), failing on a zero divisor. -/
def divideH (fuel : Nat) (args : List Term) (b : Subst) (k : Cont) (st : RState) :
    Option (Bool × RState) :=
  match args with
  | [a1, a2, a3] =>
    match applyN fuel b a1, applyN fuel b a2, applyN fuel b a3 with
    | some x, some y, some res =>
      if isNumberB x && isNumberB y then
        if qeq (numValue y) (Qi 0) then some (false, st)
        else
          match unifyWithNumberN fuel res (qdiv (numValue x) (numValue y)) b with
          | none => none
          | some (ok, b2) => if ok then k b2 st else some (false, st)
      else some (false, st)
    | _, _, _ => none
  | _ => some (false, st)

/-- `BuiltinPredicates::equal` (`=/2`). -/
def equalH (fuel : Nat) (args : List Term) (b : Subst) (k : Cont) (st : RState) :
    Option (Bool × RState) :=
  match args with
  | [a1, a2] =>
    match applyN fuel b a1, applyN fuel b a2 with
    | some left, some right =>
      match unifyN fuel left right b with
      | none => none
      | some (ok, b2) => if ok then k b2 st else some (false, st)
    | _, _ => none
  | _ => some (false, st)

/-- `BuiltinPredicates::notEqual` (`\=/2`).  Note that on the success path
(unification failed) the substitution passed to the continuation is the
one mutated by the failed unification attempt. -/
def notEqualH (fuel : Nat) (args : List Term) (b : Subst) (k : Cont) (st : RState) :
    Option (Bool × RState) :=
  match args with
  | [a1, a2] =>
    match applyN fuel b a1, applyN fuel b a2 with
    | some left, some right =>
      match unifyN fuel left right b with
      | none => none
      | some (ok, b2) => if ok then some (false, st) else k b2 st
    | _, _ => none
  | _ => some (false, st)

/-- `BuiltinPredicates::strictEqual` (`==/2`). -/
def strictEqualH (fuel : Nat) (args : List Term) (b : Subst) (k : Cont) (st : RState) :
    Option (Bool × RState) :=
  match args with
  | [a1, a2] =>
    match applyN fuel b a1, applyN fuel b a2 with
    | some left, some right =>
      if beqT left right then k b st else some (false, st)
    | _, _ => none
  | _ => some (false, st)

/-- `BuiltinPredicates::strictNotEqual` (`\==/2`). -/
def strictNotEqualH (fuel : Nat) (args : List Term) (b : Subst) (k : Cont) (st : RState) :
    Option (Bool × RState) :=
  match args with
  | [a1, a2] =>
    match applyN fuel b a1, applyN fuel b a2 with
    | some left, some right =>
      if beqT left right then some (false, st) else k b st
    | _, _ => none
  | _ => some (false, st)

/-- `BuiltinPredicates::lessThan` (`</2`). -/
def lessThanH (fuel : Nat) (args : List Term) (b : Subst) (k : Cont) (st : RState) :
    Option (Bool × RState) :=
  match args with
  | [a1, a2] =>
    match applyN fuel b a1, applyN fuel b a2 with
    | some left, some right =>
      match cmpN fuel left right with
      | none => none
      | some c => if c < 0 then k b st else some (false, st)
    | _, _ => none
  | _ => some (false, st)

/-- `BuiltinPredicates::greaterThan` (`>/2`). -/
def greaterThanH (fuel : Nat) (args : List Term) (b : Subst) (k : Cont) (st : RState) :
    Option (Bool × RState) :=
  match args with
  | [a1, a2] =>
    match applyN fuel b a1, applyN fuel b a2 with
    | some left, some right =>
      match cmpN fuel left right with
      | none => none
      | some c => if 0 < c then k b st else some (false, st)
    | _, _ => none
  | _ => some (false, st)

/-- `BuiltinPredicates::lessEqual` (`=</2`). -/
def lessEqualH (fuel : Nat) (args : List Term) (b : Subst) (k : Cont) (st : RState) :
    Option (Bool × RState) :=
  match args with
  | [a1, a2] =>
    match applyN fuel b a1, applyN fuel b a2 with
    | some left, some right =>
      match cmpN fuel left right with
      | none => none
      | some c => if c ≤ 0 then k b st else some (false, st)
    | _, _ => none
  | _ => some (false, st)

/-- `BuiltinPredicates::greaterEqual` (`>=/2`). -/
def greaterEqualH (fuel : Nat) (args : List Term) (b : Subst) (k : Cont) (st : RState) :
    Option (Bool × RState) :=
  match args with
  | [a1, a2] =>
    match applyN fuel b a1, applyN fuel b a2 with
    | some left, some right =>
      match cmpN fuel left right with
      | none => none
      | some c => if 0 ≤ c then k b st else some (false, st)
    | _, _ => none
  | _ => some (false, st)

/-- `BuiltinPredicates::append` (`append/3`): only the mode where the
first two arguments are already List terms; their concatenated elements
(tails dropped, as in the C++ code) are unified with the third. -/
def appendH (fuel : Nat) (args : List Term) (b : Subst) (k : Cont) (st : RState) :
    Option (Bool × RState) :=
  match args with
  | [a1, a2, a3] =>
    match applyN fuel b a1, applyN fuel b a2, applyN fuel b a3 with
    | some l1, some l2, some res =>
      match l1, l2 with
      | .list e1 _, .list e2 _ =>
        match unifyN fuel res (.list (e1 ++ e2) none) b with
        | none => none
        | some (ok, b2) => if ok then k b2 st else some (false, st)
      | _, _ => some (false, st)
    | _, _, _ => none
  | _ => some (false, st)

/-- The element loop of `BuiltinPredicates::member`: each element is
unified with the first argument under a fresh copy of the bindings. -/
def memberLoop (fuel : Nat) (el : Term) (es : List Term) (b : Subst) (k : Cont)
    (st : RState) : Option (Bool × RState) :=
  match es with
  | [] => some (true, st)
  | e :: rest =>
    match unifyN fuel el e b with
    | none => none
    | some (ok, b2) =>
      if ok then
        match k b2 st with
        | none => none
        | some (cont, st2) =>
          if cont then memberLoop fuel el rest b k st2 else some (false, st2)
      else memberLoop fuel el rest b k st

/-- `BuiltinPredicates::member` (`member/2`). -/
def memberH (fuel : Nat) (args : List Term) (b : Subst) (k : Cont) (st : RState) :
    Option (Bool × RState) :=
  match args with
  | [a1, a2] =>
    match applyN fuel b a1, applyN fuel b a2 with
    | some el, some lt =>
      match lt with
      | .list es _ => memberLoop fuel el es b k st
      | _ => some (false, st)
    | _, _ => none
  | _ => some (false, st)

/-- `BuiltinPredicates::length` (`length/2`), with the source's else-if
chain (whose third case is unreachable). -/
def lengthH (fuel : Nat) (args : List Term) (b : Subst) (k : Cont) (st : RState) :
    Option (Bool × RState) :=
  match args with
  | [a1, a2] =>
    match applyN fuel b a1, applyN fuel b a2 with
    | some lt, some nt =>
      match lt with
      | .list es _ =>
        match unifyWithNumberN fuel nt (Qi es.length) b with
        | none => none
        | some (ok, b2) => if ok then k b2 st else some (false, st)
      | _ =>
        match nt with
        | .int n =>
          if 0 ≤ n ∧ isVarB lt = true then
            let elems := (List.range n.toNat).map (fun i => Term.var ("_G" ++ toString i))
            match unifyN fuel lt (.list elems none) b with
            | none => none
            | some (ok, b2) => if ok then k b2 st else some (false, st)
          else some (false, st)
        | _ => some (false, st)
    | _, _ => none
  | _ => some (false, st)

/-- `BuiltinPredicates::var` (`var/1`). -/
def varH (fuel : Nat) (args : List Term) (b : Subst) (k : Cont) (st : RState) :
    Option (Bool × RState) :=
  match args with
  | [a1] =>
    match applyN fuel b a1 with
    | none => none
    | some t => if isVarB t then k b st else some (false, st)
  | _ => some (false, st)

/-- `BuiltinPredicates::nonvar` (`nonvar/1`). -/
def nonvarH (fuel : Nat) (args : List Term) (b : Subst) (k : Cont) (st : RState) :
    Option (Bool × RState) :=
  match args with
  | [a1] =>
    match applyN fuel b a1 with
    | none => none
    | some t => if isVarB t then some (false, st) else k b st
  | _ => some (false, st)

/-- `BuiltinPredicates::atom` (`atom/1`). -/
def atomH (fuel : Nat) (args : List Term) (b : Subst) (k : Cont) (st : RState) :
    Option (Bool × RState) :=
  match args with
  | [a1] =>
    match applyN fuel b a1 with
    | none => none
    | some t =>
      match t with
      | .atom _ => k b st
      | _ => some (false, st)
  | _ => some (false, st)

/-- `BuiltinPredicates::number` (`number/1`). -/
def numberH (fuel : Nat) (args : List Term) (b : Subst) (k : Cont) (st : RState) :
    Option (Bool × RState) :=
  match args with
  | [a1] =>
    match applyN fuel b a1 with
    | none => none
    | some t => if isNumberB t then k b st else some (false, st)
  | _ => some (false, st)

/-- `BuiltinPredicates::integer` (`integer/1`). -/
def integerH (fuel : Nat) (args : List Term) (b : Subst) (k : Cont) (st : RState) :
    Option (Bool × RState) :=
  match args with
  | [a1] =>
    match applyN fuel b a1 with
    | none => none
    | some t =>
      match t with
      | .int _ => k b st
      | _ => some (false, st)
  | _ => some (false, st)

/-- `BuiltinPredicates::float_check` (`float/1`). -/
def floatCheckH (fuel : Nat) (args : List Term) (b : Subst) (k : Cont) (st : RState) :
    Option (Bool × RState) :=
  match args with
  | [a1] =>
    match applyN fuel b a1 with
    | none => none
    | some t =>
      match t with
      | .float _ => k b st
      | _ => some (false, st)
  | _ => some (false, st)

/-- `BuiltinPredicates::compound` (`compound/1`). -/
def compoundH (fuel : Nat) (args : List Term) (b : Subst) (k : Cont) (st : RState) :
    Option (Bool × RState) :=
  match args with
  | [a1] =>
    match applyN fuel b a1 with
    | none => none
    | some t =>
      match t with
      | .compound _ _ => k b st
      | _ => some (false, st)
  | _ => some (false, st)

/-- `BuiltinPredicates::ground` (`ground/1`). -/
def groundH (fuel : Nat) (args : List Term) (b : Subst) (k : Cont) (st : RState) :
    Option (Bool × RState) :=
  match args with
  | [a1] =>
    match applyN fuel b a1 with
    | none => none
    | some t => if isGroundB t then k b st else some (false, st)
  | _ => some (false, st)

/-- `BuiltinPredicates::cut` (`!/0` as a table entry): invokes the
continuation once, then returns true regardless of its answer. -/
def cutH (_fuel : Nat) (_args : List Term) (b : Subst) (k : Cont) (st : RState) :
    Option (Bool × RState) :=
  match k b st with
  | none => none
  | some (_, st2) => some (true, st2)

/-- `BuiltinPredicates::fail` (`fail/0`). -/
def failH (_fuel : Nat) (_args : List Term) (_b : Subst) (_k : Cont) (st : RState) :
    Option (Bool × RState) :=
  some (false, st)

/-- `BuiltinPredicates::true_pred` (`true/0`). -/
def trueH (_fuel : Nat) (_args : List Term) (b : Subst) (k : Cont) (st : RState) :
    Option (Bool × RState) :=
  k b st

/-- `BuiltinPredicates::write` (`write/1`); the stdout effect is dropped,
the success behaviour is kept. -/
def writeH (fuel : Nat) (args : List Term) (b : Subst) (k : Cont) (st : RState) :
    Option (Bool × RState) :=
  match args with
  | [a1] =>
    match applyN fuel b a1 with
    | none => none
    | some _ => k b st
  | _ => some (false, st)

/-- `BuiltinPredicates::nl` (`nl/0`); the stdout effect is dropped. -/
def nlH (_fuel : Nat) (args : List Term) (b : Subst) (k : Cont) (st : RState) :
    Option (Bool × RState) :=
  match args with
  | [] => k b st
  | _ => some (false, st)

mutual

/-- `BuiltinPredicates::callBuiltin`: dispatch on the `(name, arity)` key;
unknown keys return false. -/
def callBuiltinN (fuel : Nat) (name : String) (arity : Nat) (args : List Term)
    (b : Subst) (k : Cont) (st : RState) : Option (Bool × RState) :=
  match fuel with
  | 0 => none
  | f + 1 =>
    let key := makeKey name arity
    if key = "is/2" then isH f args b k st
    else if key = "+/3" then addH f args b k st
    else if key = "-/3" then subtractH f args b k st
    else if key = "*/3" then multiplyH f args b k st
    else if key = "//3" then divideH f args b k st
    else if key = "=/2" then equalH f args b k st
    else if key = "\\=/2" then notEqualH f args b k st
    else if key = "==/2" then strictEqualH f args b k st
    else if key = "\\==/2" then strictNotEqualH f args b k st
    else if key = "</2" then lessThanH f args b k st
    else if key = ">/2" then greaterThanH f args b k st
    else if key = "=</2" then lessEqualH f args b k st
    else if key = ">=/2" then greaterEqualH f args b k st
    else if key = "append/3" then appendH f args b k st
    else if key = "member/2" then memberH f args b k st
    else if key = "length/2" then lengthH f args b k st
    else if key = "var/1" then varH f args b k st
    else if key = "nonvar/1" then nonvarH f args b k st
    else if key = "atom/1" then atomH f args b k st
    else if key = "number/1" then numberH f args b k st
    else if key = "integer/1" then integerH f args b k st
    else if key = "float/1" then floatCheckH f args b k st
    else if key = "compound/1" then compoundH f args b k st
    else if key = "ground/1" then groundH f args b k st
    else if key = "!/0" then cutH f args b k st
    else if key = "fail/0" then failH f args b k st
    else if key = "true/0" then trueH f args b k st
    else if key = "\\+/1" then notProvableN f args b k st
    else if key = "write/1" then writeH f args b k st
    else if key = "nl/0" then nlH f args b k st
    else some (false, st)

/-- `BuiltinPredicates::not_provable` (`\+/1`): only a built-in inner goal
is ever tested (the code cannot re-enter the resolver); any other goal
makes `\+` fail.  The `goal_succeeded` local is modelled by the `flag`
state field, saved and restored around the nested dispatch. -/
def notProvableN (fuel : Nat) (args : List Term) (b : Subst) (k : Cont)
    (st : RState) : Option (Bool × RState) :=
  match fuel with
  | 0 => none
  | f + 1 =>
    match args with
    | [g0] =>
      match applyN (f + 1) b g0 with
      | none => none
      | some goal =>
        match goal with
        | .compound fn as =>
          if isBuiltin fn as.length then
            let saved := st.flag
            match callBuiltinN f fn as.length as b
                (fun _ st2 => some (false, { st2 with flag := true }))
                { st with flag := false } with
            | none => none
            | some (_, st1) =>
              let st2 := { st1 with flag := saved }
              if st1.flag then some (false, st2) else k b st2
          else some (false, st)
        | .atom n =>
          if isBuiltin n 0 then
            let saved := st.flag
            match callBuiltinN f n 0 [] b
                (fun _ st2 => some (false, { st2 with flag := true }))
                { st with flag := false } with
            | none => none
            | some (_, st1) =>
              let st2 := { st1 with flag := saved }
              if st1.flag then some (false, st2) else k b st2
          else some (false, st)
        | _ => some (false, st)
    | _ => some (false, st)

end

/-- The clause store of `database.h`: the clause list plus the
functor/arity index and the first-argument index, both mapping key strings
to clause positions in insertion order. -/
structure Database where
  clauses : List Clause
  index : List (String × List Nat)
  firstArgIndex : List (String × List Nat)

/-- The empty database. -/
def emptyDb : Database :=
  { clauses := [], index := [], firstArgIndex := [] }

/-- Index lookup (`unordered_map::find`). -/
def alookup (l : List (String × List Nat)) (k : String) : Option (List Nat) :=
  (l.find? (fun p => p.1 == k)).map (·.2)

/-- `index_[key].push_back(i)`: append to the entry, creating it if absent. -/
def aappend (l : List (String × List Nat)) (k : String) (i : Nat) :
    List (String × List Nat) :=
  if l.any (fun p => p.1 == k) then
    l.map (fun p => if p.1 == k then (p.1, p.2 ++ [i]) else p)
  else l ++ [(k, [i])]

/-- `Database::extractFunctorArity` (empty string for goal shapes that are
neither Atom nor Compound). -/
def extractFunctorArity : Term → String
  | .atom n => makeKey n 0
  | .compound fn args => makeKey fn args.length
  | _ => ""

/-- `std::to_string(double)`: fixed six-decimal rendering (rounded half
up), modelled on the rational value (used only to build Float
first-argument index keys). -/
def fixed6 (q : Q) : String :=
  let n : Int := Int.fdiv (2 * q.num * 1000000 + q.den) (2 * q.den)
  let sign := if n < 0 then "-" else ""
  let m := n.natAbs
  let fpStr := toString (m % 1000000)
  let pad := String.mk (List.replicate (6 - fpStr.length) '0')
  sign ++ toString (m / 1000000) ++ "." ++ pad ++ fpStr

/-- `Database::makeFirstArgKey`: empty for a Variable (and for List) first
argument, otherwise the predicate key extended with the argument's value
or principal functor/arity. -/
def makeFirstArgKey (f : String) (a : Nat) (firstArg : Term) : String :=
  let base := makeKey f a
  match firstArg with
  | .atom n => base ++ ":" ++ n
  | .int v => base ++ ":" ++ toString v
  | .float v => base ++ ":" ++ fixed6 v
  | .str v => base ++ ":\"" ++ v ++ "\""
  | .compound fn args => base ++ ":" ++ fn ++ "/" ++ toString args.length
  | .var _ => ""
  | .list _ _ => ""

/-- `Database::extractFirstArgKey` (empty unless the head is a compound
with at least one argument). -/
def extractFirstArgKey (head : Term) : String :=
  match head with
  | .compound fn (a1 :: rest) => makeFirstArgKey fn (rest.length + 1) a1
  | _ => ""

/-- `Database::addClause`: record the position in the predicate index and,
when the head yields a first-argument key, in the first-argument index;
then append the clause. -/
def addClause (db : Database) (c : Clause) : Database :=
  let key := extractFunctorArity c.head
  let i := db.clauses.length
  let idx := aappend db.index key i
  let fkey := extractFirstArgKey c.head
  let fai := if fkey ≠ "" then aappend db.firstArgIndex fkey i else db.firstArgIndex
  { clauses := db.clauses ++ [c], index := idx, firstArgIndex := fai }

/-- `Database::loadProgram`, with the parser factored out: append the
given clauses in order. -/
def loadDb (cs : List Clause) : Database :=
  cs.foldl addClause emptyDb

/-- `Database::findMatchingClauses`: look the goal's functor/arity key up
in the predicate index and return the stored clauses in position order
(`clone` is the identity on values). -/
def findMatchingClauses (db : Database) (goal : Term) : List Clause :=
  match alookup db.index (extractFunctorArity goal) with
  | some positions => positions.filterMap (fun i => db.clauses.get? i)
  | none => []

/-- `Database::findClausesWithFirstArg`. -/
def findClausesWithFirstArg (db : Database) (f : String) (a : Nat)
    (firstArg : Term) : List Clause :=
  match alookup db.firstArgIndex (makeFirstArgKey f a firstArg) with
  | some positions => positions.filterMap (fun i => db.clauses.get? i)
  | none => []

/-- `max_depth_` (default 1000, `resolver.h`). -/
def maxDepth : Nat := 1000

mutual

/-- `Resolver::solveGoals` with the collecting callback of
`Resolver::solve` baked in (that callback appends the raw bindings and
always continues).  Returns the C++ `int` code (-1 fail, 0 success, 1
success-with-cut) and the threaded state.  `depth` is `current_depth_`
(incremented and restored around each clause attempt, hence a parameter),
`pcl` is the (never-read) `parent_cut_level`, `rnd` is the `rand()`
stream, read at `st.counter`.  Fuel models the call stack; `none` means
the C++ code would not return. -/
def solveGoalsN (fuel : Nat) (rnd : Nat → Nat) (db : Database) (goals : List Term)
    (b : Subst) (depth : Nat) (pcl : Nat) (st : RState) : Option (Int × RState) :=
  match fuel with
  | 0 => none
  | f + 1 =>
    if depth > maxDepth then some (-1, st)
    else
      match goals with
      | [] => some (0, { st with solutions := st.solutions ++ [b] })
      | g0 :: rest =>
        match applyN (f + 1) b g0 with
        | none => none
        | some cg =>
          match applyListN (f + 1) b rest with
          | none => none
          | some rest2 =>
            match cg with
            | .atom n =>
              if n = "!" then
                match solveGoalsN f rnd db rest2 b depth pcl st with
                | none => none
                | some (r, st2) => some (if 0 ≤ r then 1 else r, st2)
              else if isBuiltin n 0 then
                builtinStepN f rnd db n 0 [] rest2 b depth pcl st
              else
                let mcs := findMatchingClauses db cg
                if mcs.isEmpty then some (-1, st)
                else clauseLoopN f rnd db cg rest2 b depth pcl mcs (-1) st
            | .compound fn as =>
              if isBuiltin fn as.length then
                builtinStepN f rnd db fn as.length as rest2 b depth pcl st
              else
                let mcs := findMatchingClauses db cg
                if mcs.isEmpty then some (-1, st)
                else clauseLoopN f rnd db cg rest2 b depth pcl mcs (-1) st
            | _ =>
              let mcs := findMatchingClauses db cg
              if mcs.isEmpty then some (-1, st)
              else clauseLoopN f rnd db cg rest2 b depth pcl mcs (-1) st
termination_by structural fuel

/-- The built-in branch of `Resolver::solveGoals`: call the handler on a
copy of the bindings with the continuation that solves the remaining
goals; `result` models the loop-local `int result = -1` (saved and
restored, since each C++ invocation has its own local). -/
def builtinStepN (fuel : Nat) (rnd : Nat → Nat) (db : Database) (fn : String)
    (arity : Nat) (as : List Term) (rest2 : List Term) (b : Subst) (depth : Nat)
    (pcl : Nat) (st : RState) : Option (Int × RState) :=
  match fuel with
  | 0 => none
  | f + 1 =>
    let cb : Cont := fun s2 st1 =>
      let saved := st1.result
      match solveGoalsN f rnd db rest2 s2 depth pcl st1 with
      | none => none
      | some (sub, st2) =>
        some (decide (sub = 0), { st2 with result := if 0 ≤ sub then sub else saved })
    match callBuiltinN (f + 1) fn arity as b cb { st with result := -1 } with
    | none => none
    | some (ok, st1) =>
      some ((if ok then st1.result else -1), { st1 with result := st.result })
termination_by structural fuel

/-- The clause loop of `Resolver::solveGoals`: try each matching clause in
order — rename with a fresh suffix, unify the goal with the renamed head
under an empty substitution, compose, run the body followed by the
remaining goals, and handle cut and termination. -/
def clauseLoopN (fuel : Nat) (rnd : Nat → Nat) (db : Database) (cg : Term)
    (rest2 : List Term) (b : Subst) (depth : Nat) (pcl : Nat) (cs : List Clause)
    (res : Int) (st : RState) : Option (Int × RState) :=
  match fuel with
  | 0 => none
  | f + 1 =>
    match cs with
    | [] => some (res, st)
    | c :: more =>
      if st.termination then some (res, st)
      else
        let depth1 := depth + 1
        if depth1 > maxDepth then some (res, st)
        else
          let suffix := "_" ++ toString depth1 ++ "_" ++ toString (rnd st.counter)
          let st1 := { st with counter := st.counter + 1 }
          let c2 := renameClause c suffix
          match unifyN (f + 1) cg c2.head [] with
          | none => none
          | some (ok, u) =>
            if ok then
              match composeN (f + 1) b u with
              | none => none
              | some nb =>
                match applyListN (f + 1) u c2.body with
                | none => none
                | some bodyGoals =>
                  match solveGoalsN f rnd db (bodyGoals ++ rest2) nb depth1 depth st1 with
                  | none => none
                  | some (sub, st2) =>
                    if 0 ≤ sub then
                      if sub = 1 then some (0, st2)
                      else clauseLoopN f rnd db cg rest2 b depth pcl more 0 st2
                    else clauseLoopN f rnd db cg rest2 b depth pcl more res st2
            else clauseLoopN f rnd db cg rest2 b depth pcl more res st1
termination_by structural fuel

end

/-- `Resolver::filterBindings`: restrict the bindings to the query
variables, in query-variable order. -/
def filterBindings (b : Subst) (qvars : List String) : Subst :=
  qvars.filterMap (fun v => (slookup b v).map (fun t => (v, t)))

/-- The state at `solveWithCallback` entry: flags reset, solutions empty;
only the `rand()` cursor survives from earlier runs. -/
def initState (counter : Nat) : RState :=
  { solutions := [], termination := false, counter := counter, result := -1,
    flag := false }

/-- `Resolver::solve(goals)`: collect the query variables, run the search
from depth 0 with empty bindings, and filter every collected solution down
to the query variables.  Returns the solutions and the final `rand()`
cursor. -/
def solveList (fuel : Nat) (rnd : Nat → Nat) (db : Database) (goals : List Term)
    (counter : Nat) : Option (List Subst × Nat) :=
  let qvars := goals.foldl (fun acc g => collectVars g acc) []
  match solveGoalsN fuel rnd db goals [] 0 0 (initState counter) with
  | none => none
  | some (_, st) =>
    some (st.solutions.map (fun s => filterBindings s qvars), st.counter)

mutual

/-- No variable of the term lies in `doms` (used to state when a term is
unaffected by a substitution with that key set). -/
def avoidsB (doms : List String) : Term → Bool
  | .var n => !(doms.contains n)
  | .compound _ args => avoidsL doms args
  | .list es tl =>
    avoidsL doms es && (match tl with | some u => avoidsB doms u | none => true)
  | _ => true

/-- All-elements `avoidsB`. -/
def avoidsL (doms : List String) : List Term → Bool
  | [] => true
  | x :: xs => avoidsB doms x && avoidsL doms xs

end

/-- Every value of the substitution avoids `doms`. -/
def rangeAvoidsB (s : Subst) (doms : List String) : Bool :=
  s.all (fun p => avoidsB doms p.2)

/-- Two substitutions do not interfere: their keys are pairwise distinct
(so in particular the domains are disjoint) and no value of either
mentions a variable bound by either. -/
def nonInterferingB (s1 s2 : Subst) : Bool :=
  decide ((sKeys s1 ++ sKeys s2).Nodup) &&
    rangeAvoidsB s1 (sKeys s1 ++ sKeys s2) &&
    rangeAvoidsB s2 (sKeys s1 ++ sKeys s2)

mutual

/-- One parallel substitution step: replace each bound variable by its
image, without re-substituting inside the image.  On non-interfering
substitutions this coincides with `applyN` (proved below). -/
def substOnce (s : Subst) : Term → Term
  | .var n =>
    match slookup s n with
    | some u => u
    | none => .var n
  | .compound fn args => .compound fn (substOnceL s args)
  | .list es tl =>
    .list (substOnceL s es)
      (match tl with | some u => some (substOnce s u) | none => none)
  | t => t

/-- Pointwise `substOnce`. -/
def substOnceL (s : Subst) : List Term → List Term
  | [] => []
  | x :: xs => substOnce s x :: substOnceL s xs

end

/-- Is the (dereferenced) term neither a Compound nor a List — the shapes
whose unification recurses into sub-pairs. -/
def notStructB : Term → Bool
  | .compound _ _ => false
  | .list _ _ => false
  | _ => true

/-- The behaviour claim C8 asserts for `matching_clauses`, stated from the
claim's words and NOT from the source (for comparison): for a goal with a
non-variable first argument, the clauses of the goal's predicate whose
head first argument carries the goal's first-argument key together with
those whose head first argument is a variable, in insertion order; for
every other goal, the full predicate list. -/
def specMatchingClauses (db : Database) (goal : Term) : List Clause :=
  let pred := db.clauses.filter
    (fun c => extractFunctorArity c.head == extractFunctorArity goal)
  match goal with
  | .compound _ (a1 :: _) =>
    if isVarB a1 then pred
    else pred.filter (fun c =>
      match c.head with
      | .compound _ (h1 :: _) =>
        isVarB h1 || (extractFirstArgKey c.head == extractFirstArgKey goal)
      | _ => false)
  | _ => pred

/-! Concrete inputs used by the claim theorems. -/

/-- The clause `append([],L,L).` of scenario S3. -/
def c1Fact : Clause :=
  ⟨.compound "append" [.list [] none, .var "L", .var "L"], []⟩

/-- The clause `append([H|T],L,[H|R]) :- append(T,L,R).` of scenario S3. -/
def c1Rule : Clause :=
  ⟨.compound "append" [.list [.var "H"] (some (.var "T")), .var "L",
      .list [.var "H"] (some (.var "R"))],
   [.compound "append" [.var "T", .var "L", .var "R"]]⟩

/-- The S3 database. -/
def c1db : Database := loadDb [c1Fact, c1Rule]

/-- The query `append(X,Y,[1,2,3])`. -/
def c1q1 : List Term :=
  [.compound "append" [.var "X", .var "Y", .list [.int 1, .int 2, .int 3] none]]

/-- The query `append([a,b],[c,d],X)`. -/
def c1q2 : List Term :=
  [.compound "append" [.list [.atom "a", .atom "b"] none,
      .list [.atom "c", .atom "d"] none, .var "X"]]

/-- The starting substitution of the C2 counterexample:
`{X ↦ f(Y)}` (acyclic). -/
def c2s0 : Subst := [("X", .compound "f" [.var "Y"])]

/-- The substitution produced by the C2 counterexample:
`{X ↦ f(Y), Y ↦ f(X)}` (cyclic when fully dereferenced). -/
def c2s1 : Subst :=
  [("X", .compound "f" [.var "Y"]), ("Y", .compound "f" [.var "X"])]

/-- The C3 counterexample terms `f(X,Y)` and `f(g(Y),g(X))`. -/
def c3t1 : Term := .compound "f" [.var "X", .var "Y"]

/-- Companion term of `c3t1`. -/
def c3t2 : Term :=
  .compound "f" [.compound "g" [.var "Y"], .compound "g" [.var "X"]]

/-- The substitution unification returns for `c3t1 ≐ c3t2` from the empty
store: `{X ↦ g(Y), Y ↦ g(X)}`. -/
def c3s : Subst :=
  [("X", .compound "g" [.var "Y"]), ("Y", .compound "g" [.var "X"])]

/-- The S6 database `fruit(apple). fruit(pear).`. -/
def c4db : Database :=
  loadDb [⟨.compound "fruit" [.atom "apple"], []⟩,
          ⟨.compound "fruit" [.atom "pear"], []⟩]

/-- The query `\+ fruit(carrot)`. -/
def c4qa : List Term := [.compound "\\+" [.compound "fruit" [.atom "carrot"]]]

/-- The query `\+ fruit(apple)`. -/
def c4qb : List Term := [.compound "\\+" [.compound "fruit" [.atom "apple"]]]

/-- The S4 expression `(10*2+5)/5 - 1`. -/
def c5expr : Term :=
  .compound "-" [.compound "/" [.compound "+" [.compound "*" [.int 10, .int 2],
      .int 5], .int 5], .int 1]

/-- The query `X is (10*2+5)/5 - 1`. -/
def c5q : List Term := [.compound "is" [.var "X", c5expr]]

/-- The query `X is 2.5 + 1.5` (two Float operands). -/
def c5qf : List Term :=
  [.compound "is" [.var "X", .compound "+" [.float ⟨5, 2⟩, .float ⟨3, 2⟩]]]

/-- The substitutions of the C6 counterexample. -/
def c6s1 : Subst := [("X", .atom "a")]

/-- Companion of `c6s1`, binding the same variable differently. -/
def c6s2 : Subst := [("X", .atom "b")]

/-- The database `p(Y).` of the C7 counterexample (a fact with a variable,
so the reported binding mentions a renamed clause variable). -/
def c7db : Database := loadDb [⟨.compound "p" [.var "Y"], []⟩]

/-- The query `p(X)`. -/
def c7q : List Term := [.compound "p" [.var "X"]]

/-- The clause `p(a).` of the C8 counterexample. -/
def c8pa : Clause := ⟨.compound "p" [.atom "a"], []⟩

/-- The clause `p(b).` of the C8 counterexample. -/
def c8pb : Clause := ⟨.compound "p" [.atom "b"], []⟩

/-- The C8 database `p(a). p(b).`. -/
def c8db : Database := loadDb [c8pa, c8pb]

/-- The C8 goal `p(a)` (first argument non-variable). -/
def c8goal : Term := .compound "p" [.atom "a"]

/-- The right-hand side `1/0` of the C9 witness. -/
def c9rhs : Term := .compound "/" [.int 1, .int 0]

/-- An always-continue continuation for witnesses. -/
def contTrue : Cont := fun _ st => some (true, st)

/-- A continuation that records the substitution it receives (used to
observe what `\=` passes on). -/
def contRecord : Cont := fun s st =>
  some (true, { st with solutions := st.solutions ++ [s] })

/-- A quiescent state for witnesses. -/
def st0 : RState :=
  { solutions := [], termination := false, counter := 0, result := -1,
    flag := false }

/-- The C10 counterexample terms `f(X,a)` and `f(b,c)`. -/
def c10t1 : Term := .compound "f" [.var "X", .atom "a"]

/-- Companion of `c10t1`; unification fails on the second argument pair
after binding `X`. -/
def c10t2 : Term := .compound "f" [.atom "b", .atom "c"]

/-! Theorems. -/

/-- Unfolding `applyN` at successor fuel on a variable. -/
theorem applyN_succ_var (f : Nat) (s : Subst) (n : String) :
    applyN (f + 1) s (.var n) =
      (match slookup s n with
       | some u => applyN f s u
       | none => some (.var n)) := rfl

/-- Unfolding `applyN` at successor fuel on a compound. -/
theorem applyN_succ_compound (f : Nat) (s : Subst) (fn : String) (args : List Term) :
    applyN (f + 1) s (.compound fn args) =
      (applyListN f s args).map (Term.compound fn) := rfl

/-- Unfolding `applyN` at fuel zero. -/
theorem applyN_zero (s : Subst) (t : Term) : applyN 0 s t = none := rfl

/-- Unfolding `applyListN` at successor fuel on a cons cell. -/
theorem applyListN_succ_cons (f : Nat) (s : Subst) (x : Term) (xs : List Term) :
    applyListN (f + 1) s (x :: xs) =
      (match applyN f s x, applyListN f s xs with
       | some y, some ys => some (y :: ys)
       | _, _ => none) := rfl

/-- `applyN` on a bound variable steps to the image. -/
theorem applyN_var_bound (f : Nat) (s : Subst) (n : String) (u : Term)
    (h : slookup s n = some u) : applyN (f + 1) s (.var n) = applyN f s u := by
  rw [applyN_succ_var, h]

/-- `applyListN` with a diverging head element diverges. -/
theorem applyListN_cons_none (f : Nat) (s : Subst) (x : Term) (xs : List Term)
    (h : applyN f s x = none) : applyListN (f + 1) s (x :: xs) = none := by
  rw [applyListN_succ_cons, h]

/-- A two-variable binding cycle `x ↦ fn(y), y ↦ gm(x)` makes
`applySubstitution` diverge on both variables, whatever the fuel. -/
theorem apply_cyc (fn gm x y : String) (h : x ≠ y) : ∀ n,
    applyN n [(x, .compound fn [.var y]), (y, .compound gm [.var x])] (.var x) = none ∧
    applyN n [(x, .compound fn [.var y]), (y, .compound gm [.var x])] (.var y) = none := by
  intro n
  induction n using Nat.strong_induction_on with
  | _ n ih =>
    match n with
    | 0 => exact ⟨rfl, rfl⟩
    | Nat.succ m =>
      have hx : slookup [(x, Term.compound fn [Term.var y]),
          (y, Term.compound gm [Term.var x])] x = some (Term.compound fn [Term.var y]) := by
        simp [slookup, List.find?]
      have hxy : (x == y) = false := by
        simp [h]
      have hy : slookup [(x, Term.compound fn [Term.var y]),
          (y, Term.compound gm [Term.var x])] y = some (Term.compound gm [Term.var x]) := by
        simp [slookup, List.find?, hxy]
      constructor
      · rw [applyN_var_bound _ _ _ _ hx]
        match m with
        | 0 => rfl
        | Nat.succ k =>
          rw [applyN_succ_compound]
          match k with
          | 0 => rfl
          | Nat.succ j =>
            rw [applyListN_cons_none _ _ _ _ (ih j (by omega)).2]
            rfl
      · rw [applyN_var_bound _ _ _ _ hy]
        match m with
        | 0 => rfl
        | Nat.succ k =>
          rw [applyN_succ_compound]
          match k with
          | 0 => rfl
          | Nat.succ j =>
            rw [applyListN_cons_none _ _ _ _ (ih j (by omega)).1]
            rfl

/-- Claim C2 (code_bug evidence).  The spec's invariant — unification
preserves acyclicity of the binding store — fails on the code: starting
from the acyclic store `{X ↦ f(Y)}`, `unify(Y, f(X))` succeeds (the
occurs check inspects `f(X)` purely syntactically, never dereferencing
`X`), and the resulting store `{X ↦ f(Y), Y ↦ f(X)}` is cyclic:
`applySubstitution` diverges on it at every fuel. -/
theorem C2_occurs_check_cycle :
    applyN 5 c2s0 (.var "X") = some (.compound "f" [.var "Y"]) ∧
    unifyN 10 (.var "Y") (.compound "f" [.var "X"]) c2s0 = some (true, c2s1) ∧
    (∀ n, applyN n c2s1 (.var "X") = none) ∧
    (∀ n, applyN n c2s1 (.var "Y") = none) := by
  refine ⟨rfl, rfl, ?_, ?_⟩
  · exact fun n => (apply_cyc "f" "f" "X" "Y" (by decide) n).1
  · exact fun n => (apply_cyc "f" "f" "X" "Y" (by decide) n).2

/-- Claim C3 (code_bug evidence).  "Unifiers actually unify" fails on the
code: from the empty store, `unify(f(X,Y), f(g(Y),g(X)))` succeeds with
`{X ↦ g(Y), Y ↦ g(X)}` (the syntactic occurs check does not look through
the binding added for `X`), and applying that substitution to either term
diverges at every fuel, so the two applications never terminate with
equal results. -/
theorem C3_unify_apply_diverges :
    unifyN 12 c3t1 c3t2 [] = some (true, c3s) ∧
    (∀ n, applyN n c3s c3t1 = none) := by
  refine ⟨rfl, fun n => ?_⟩
  have h := apply_cyc "g" "g" "X" "Y" (by decide)
  simp only [c3t1, c3s] at h ⊢
  match n with
  | 0 => rfl
  | Nat.succ m =>
    rw [applyN_succ_compound]
    match m with
    | 0 => rfl
    | Nat.succ k =>
      rw [applyListN_cons_none _ _ _ _ (h k).1]
      rfl

/-- Claim C1 (counterexample).  With the S3 database loaded, the query
`append(X,Y,[1,2,3])` yields zero solutions, not the four the claim
states: `append/3` is a registered built-in, the resolver consults the
built-in table before database lookup, and the built-in handles only the
mode where the first two arguments are already lists, so the user's
`append` clauses are never tried. -/
theorem C1_counterexample :
    solveList 40 id c1db c1q1 0 = some ([], 0) := rfl

/-- Claim C1 (amended).  `append([a,b],[c,d],X)` yields exactly one
solution with `X = [a,b,c,d]` (via the built-in), and
`append(X,Y,[1,2,3])` yields zero solutions. -/
theorem C1_amended :
    solveList 40 id c1db c1q2 0 =
      some ([[("X", Term.list [.atom "a", .atom "b", .atom "c", .atom "d"] none)]], 0) ∧
    solveList 40 id c1db c1q1 0 = some ([], 0) := ⟨rfl, rfl⟩

/-- Claim C4 (code_bug evidence).  With `fruit(apple). fruit(pear).`
loaded, `\+ fruit(carrot)` yields zero solutions instead of the one empty
solution the claim (and the spec) require: `not_provable` tests only
built-in inner goals and fails on any database predicate, with no
resolver reentry.  (`\+ fruit(apple)` also yields zero solutions, which
matches the claim, but for the same wrong reason.) -/
theorem C4_no_resolver_reentry :
    solveList 40 id c4db c4qa 0 = some ([], 0) ∧
    solveList 40 id c4db c4qb 0 = some ([], 0) := ⟨rfl, rfl⟩

/-- Claim C5 (code_bug evidence).  The query `X is (10*2+5)/5 - 1`
yields one solution binding `X` to the Integer 4, not the Float 4.0 the
claim, the spec (S4) and the repository's own test
(`BuiltinTest.IsOperatorHandlesComplexArithmetic`) expect:
`unifyWithNumber` converts every integral in-range double back to an
Integer.  The second conjunct shows the typing rule "Float in every other
case" also fails: `X is 2.5 + 1.5` binds `X` to Integer 4. -/
theorem C5_integral_coercion :
    solveList 40 id emptyDb c5q 0 = some ([[("X", Term.int 4)]], 0) ∧
    solveList 40 id emptyDb c5qf 0 = some ([[("X", Term.int 4)]], 0) ∧
    Term.int 4 ≠ Term.float (Qi 4) := ⟨rfl, rfl, by simp⟩

/-- Claim C6 (counterexample).  `compose` overwrites bindings of `s1` on
shared keys, so with `s1 = {X ↦ a}`, `s2 = {X ↦ b}` and `t = X`, applying
`compose(s1,s2)` gives `b` while applying `s1` then `s2` gives `a`. -/
theorem C6_counterexample :
    composeN 5 c6s1 c6s2 = some [("X", Term.atom "b")] ∧
    applyN 5 [("X", Term.atom "b")] (.var "X") = some (.atom "b") ∧
    applyN 5 c6s1 (.var "X") = some (.atom "a") ∧
    applyN 5 c6s2 (.atom "a") = some (.atom "a") ∧
    Term.atom "b" ≠ Term.atom "a" := ⟨rfl, rfl, rfl, rfl, by simp⟩

/-- Claim C7 (counterexample).  Two complete consecutive runs of the
resolver on the same database `p(Y).` and the same query `p(X)` do not
produce identical solution sequences: the clause-renaming suffix consumes
the global `rand()` stream, whose cursor persists across runs, so the
first run binds `X` to `Y_1_0` and the second to `Y_1_1`. -/
theorem C7_counterexample :
    solveList 40 id c7db c7q 0 = some ([[("X", Term.var "Y_1_0")]], 1) ∧
    solveList 40 id c7db c7q 1 = some ([[("X", Term.var "Y_1_1")]], 2) ∧
    ([[("X", Term.var "Y_1_0")]] : List Subst) ≠ [[("X", Term.var "Y_1_1")]] :=
  ⟨rfl, rfl, by simp⟩

/-- Claim C7 (amended): two runs over the same database and query yield
identical solution sequences provided they start from the same
variable-renaming stream state (e.g. in separate processes, where the
unseeded `rand()` sequence restarts). -/
theorem C7_amended (fuel : Nat) (rnd : Nat → Nat) (db : Database)
    (goals : List Term) (c1 c2 : Nat) (h : c1 = c2) :
    solveList fuel rnd db goals c1 = solveList fuel rnd db goals c2 := by
  rw [h]

/-- Witness for `C7_amended` at the concrete C7 inputs. -/
theorem C7_amended_witness :
    solveList 40 id c7db c7q 0 = solveList 40 id c7db c7q 0 :=
  C7_amended 40 id c7db c7q 0 0 rfl

/-- Claim C8 (counterexample).  For the goal `p(a)` against the database
`p(a). p(b).`, `findMatchingClauses` returns both clauses — the full
predicate-index list — whereas the claim says it returns exactly the
first-argument-key matches (plus variable-headed clauses), i.e. only
`p(a).`; the first-argument index is built but never consulted by
`findMatchingClauses`. -/
theorem C8_counterexample :
    findMatchingClauses c8db c8goal = [c8pa, c8pb] ∧
    specMatchingClauses c8db c8goal = [c8pa] ∧
    findMatchingClauses c8db c8goal ≠ specMatchingClauses c8db c8goal := by
  refine ⟨rfl, rfl, ?_⟩
  intro h
  rw [show findMatchingClauses c8db c8goal = [c8pa, c8pb] from rfl,
      show specMatchingClauses c8db c8goal = [c8pa] from rfl] at h
  simpa using congrArg List.length h

/-- Claim C10 (counterexample).  Failed unification is not atomic: from
the empty store, unifying `f(X,a)` with `f(b,c)` fails on the second
argument pair but keeps the binding `X ↦ b` added for the first; a
succeeding `\=(f(X,a), f(b,c))` goal passes that polluted store to its
continuation. -/
theorem C10_counterexample :
    unifyN 10 c10t1 c10t2 [] = some (false, [("X", Term.atom "b")]) ∧
    notEqualH 10 [c10t1, c10t2] [] contRecord st0 =
      some (true, { solutions := [[("X", Term.atom "b")]], termination := false,
                    counter := 0, result := -1, flag := false }) ∧
    ([("X", Term.atom "b")] : Subst) ≠ [] := ⟨rfl, rfl, by simp⟩

/-- Claim C10 (amended).  When both dereferenced operands are
non-structured terms (Variable, Atom, Integer, Float or String), failed
unification leaves the substitution exactly as it was at entry: none of
the failure exits of those branches writes a binding. -/
theorem C10_amended (f : Nat) (t1 t2 : Term) (s s' : Subst) (d1 d2 : Term)
    (h1 : derefN (f + 1) s t1 = some d1) (h2 : derefN (f + 1) s t2 = some d2)
    (hn1 : notStructB d1 = true) (hn2 : notStructB d2 = true)
    (hu : unifyN (f + 1) t1 t2 s = some (false, s')) : s' = s := by
  rw [unifyN, h1, h2] at hu
  cases d1 <;> cases d2 <;>
    simp_all [notStructB] <;>
    (split at hu <;> simp_all)

/-- Witness for `C10_amended`: unifying the atoms `a` and `b` fails and
leaves the entry substitution `{X ↦ c}` untouched. -/
theorem C10_amended_witness :
    [("X", Term.atom "c")] = [("X", Term.atom "c")] :=
  C10_amended 8 (.atom "a") (.atom "b") [("X", Term.atom "c")]
    [("X", Term.atom "c")] (.atom "a") (.atom "b") rfl rfl rfl rfl rfl

/-- `alookup` on a cons cell. -/
theorem alookup_cons (p : String × List Nat) (rest : List (String × List Nat))
    (k : String) :
    alookup (p :: rest) k = if p.1 == k then some p.2 else alookup rest k := by
  by_cases hp : p.1 = k
  · simp [alookup, List.find?, hp]
  · have hp2 : (p.1 == k) = false := by simp [hp]
    simp [alookup, List.find?, hp2]

/-- Looking a key up in the per-key-updated map: the first matching entry
has its position list extended. -/
theorem alookup_mapUpd_self (l : List (String × List Nat)) (k : String) (i : Nat) :
    alookup (l.map (fun p => if p.1 == k then (p.1, p.2 ++ [i]) else p)) k
      = (alookup l k).map (fun v => v ++ [i]) := by
  induction l with
  | nil => simp [alookup]
  | cons p rest ih =>
    rw [List.map_cons, alookup_cons, alookup_cons]
    by_cases hp : p.1 = k
    · have hp2 : (p.1 == k) = true := by simp [hp]
      simp [hp2]
    · have hp2 : (p.1 == k) = false := by simp [hp]
      simp only [hp2, Bool.false_eq_true, if_false]
      simpa using ih

/-- Updating under key `k` does not change the entry of another key. -/
theorem alookup_mapUpd_ne (l : List (String × List Nat)) (k : String) (i : Nat)
    (k2 : String) (h : k2 ≠ k) :
    alookup (l.map (fun p => if p.1 == k then (p.1, p.2 ++ [i]) else p)) k2
      = alookup l k2 := by
  induction l with
  | nil => simp [alookup]
  | cons p rest ih =>
    rw [List.map_cons, alookup_cons, alookup_cons]
    by_cases hp : p.1 = k
    · have hp2 : (p.1 == k) = true := by simp [hp]
      have hp3 : (p.1 == k2) = false := by
        rw [hp]
        exact beq_eq_false_iff_ne.mpr (Ne.symm h)
      simp only [hp2, if_true, hp3, Bool.false_eq_true, if_false]
      simpa using ih
    · have hp2 : (p.1 == k) = false := by simp [hp]
      by_cases hq : p.1 = k2
      · have hq2 : (p.1 == k2) = true := by simp [hq]
        simp [hp2, hq2]
      · have hq2 : (p.1 == k2) = false := by simp [hq]
        simp only [hp2, Bool.false_eq_true, if_false, hq2]
        simpa using ih

/-- A key that matches no entry is absent. -/
theorem alookup_eq_none (l : List (String × List Nat)) (k : String)
    (h : l.any (fun q => q.1 == k) = false) : alookup l k = none := by
  induction l with
  | nil => rfl
  | cons p rest ih =>
    simp only [List.any_cons, Bool.or_eq_false_iff] at h
    rw [alookup_cons]
    simp only [h.1, Bool.false_eq_true, if_false]
    exact ih h.2

/-- Appending a fresh key's entry makes it found with exactly that list. -/
theorem alookup_append_fresh (l : List (String × List Nat)) (k : String) (i : Nat)
    (h : l.any (fun q => q.1 == k) = false) :
    alookup (l ++ [(k, [i])]) k = some [i] := by
  induction l with
  | nil => simp [alookup, List.find?]
  | cons p rest ih =>
    simp only [List.any_cons, Bool.or_eq_false_iff] at h
    rw [List.cons_append, alookup_cons]
    simp only [h.1, Bool.false_eq_true, if_false]
    exact ih h.2

/-- Appending an entry for `k` does not affect lookups of other keys. -/
theorem alookup_append_fresh_ne (l : List (String × List Nat)) (k : String)
    (i : Nat) (k2 : String) (h : k2 ≠ k) :
    alookup (l ++ [(k, [i])]) k2 = alookup l k2 := by
  induction l with
  | nil =>
    have hk : (k == k2) = false := beq_eq_false_iff_ne.mpr (Ne.symm h)
    simp [alookup, List.find?, hk]
  | cons p rest ih =>
    rw [List.cons_append, alookup_cons, alookup_cons]
    by_cases hq : p.1 = k2
    · simp [hq]
    · have hq2 : (p.1 == k2) = false := by simp [hq]
      simp only [hq2, Bool.false_eq_true, if_false]
      exact ih

/-- Appending a position under key `k` extends exactly the entry of `k`. -/
theorem alookup_aappend_self (l : List (String × List Nat)) (k : String) (i : Nat) :
    alookup (aappend l k i) k = some ((alookup l k).getD [] ++ [i]) := by
  by_cases ha : l.any (fun q => q.1 == k)
  · rw [aappend, if_pos ha, alookup_mapUpd_self]
    rcases hex : alookup l k with _ | v
    · exfalso
      simp only [List.any_eq_true] at ha
      obtain ⟨q, hq, hqk⟩ := ha
      have hs : (l.find? (fun p => p.1 == k)).isSome := by
        rw [List.find?_isSome]
        exact ⟨q, hq, hqk⟩
      rcases hf : l.find? (fun p => p.1 == k) with _ | w
      · rw [hf] at hs
        simp at hs
      · rw [alookup, hf] at hex
        simp at hex
    · simp
  · have ha2 : l.any (fun q => q.1 == k) = false := Bool.eq_false_iff.mpr ha
    have hnone : alookup l k = none := alookup_eq_none l k ha2
    rw [aappend, if_neg ha, hnone]
    simpa using alookup_append_fresh l k i ha2

/-- Appending a position under key `k` leaves other keys' entries alone. -/
theorem alookup_aappend_ne (l : List (String × List Nat)) (k : String) (i : Nat)
    (k2 : String) (h : k2 ≠ k) : alookup (aappend l k i) k2 = alookup l k2 := by
  by_cases ha : l.any (fun q => q.1 == k)
  · rw [aappend, if_pos ha, alookup_mapUpd_ne l k i k2 h]
  · rw [aappend, if_neg ha]
    exact alookup_append_fresh_ne l k i k2 h

/-- `findMatchingClauses` is lookup-then-project over the predicate index. -/
theorem findMatchingClauses_eq (db : Database) (goal : Term) :
    findMatchingClauses db goal
      = ((alookup db.index (extractFunctorArity goal)).getD []).filterMap
          (fun i => db.clauses.get? i) := by
  rcases h : alookup db.index (extractFunctorArity goal) with _ | ps <;>
    simp [findMatchingClauses, h]

/-- `findClausesWithFirstArg` is lookup-then-project over the
first-argument index. -/
theorem findClausesWithFirstArg_eq (db : Database) (f : String) (a : Nat)
    (t : Term) :
    findClausesWithFirstArg db f a t
      = ((alookup db.firstArgIndex (makeFirstArgKey f a t)).getD []).filterMap
          (fun i => db.clauses.get? i) := by
  rcases h : alookup db.firstArgIndex (makeFirstArgKey f a t) with _ | ps <;>
    simp [findClausesWithFirstArg, h]

/-- Positions below the old length project identically after a clause is
appended. -/
theorem filterMap_get_append_stable (cl : List Clause) (c : Clause)
    (ps : List Nat) (h : ∀ i ∈ ps, i < cl.length) :
    ps.filterMap (fun i => (cl ++ [c]).get? i)
      = ps.filterMap (fun i => cl.get? i) := by
  apply List.filterMap_congr
  intro i hi
  rw [List.get?_append (h i hi)]

/-- `addClause` preserves the database invariant: stored positions are
valid, each predicate-index entry projects to exactly the clauses whose
head carries that functor/arity key, each first-argument-index entry
projects to exactly the clauses whose head carries that first-argument
key, and the empty key is never indexed. -/
theorem addClause_good (db : Database) (c : Clause)
    (hv : ∀ k i, i ∈ (alookup db.index k).getD [] → i < db.clauses.length)
    (hc : ∀ k, ((alookup db.index k).getD []).filterMap (fun i => db.clauses.get? i)
          = db.clauses.filter (fun cl => extractFunctorArity cl.head == k))
    (hv2 : ∀ k i, i ∈ (alookup db.firstArgIndex k).getD [] → i < db.clauses.length)
    (hc2 : ∀ k, k ≠ "" →
        ((alookup db.firstArgIndex k).getD []).filterMap (fun i => db.clauses.get? i)
          = db.clauses.filter (fun cl => extractFirstArgKey cl.head == k))
    (he : alookup db.firstArgIndex "" = none) :
    (∀ k i, i ∈ (alookup (addClause db c).index k).getD []
        → i < (addClause db c).clauses.length) ∧
    (∀ k, ((alookup (addClause db c).index k).getD []).filterMap
            (fun i => (addClause db c).clauses.get? i)
          = (addClause db c).clauses.filter
              (fun cl => extractFunctorArity cl.head == k)) ∧
    (∀ k i, i ∈ (alookup (addClause db c).firstArgIndex k).getD []
        → i < (addClause db c).clauses.length) ∧
    (∀ k, k ≠ "" →
        ((alookup (addClause db c).firstArgIndex k).getD []).filterMap
            (fun i => (addClause db c).clauses.get? i)
          = (addClause db c).clauses.filter
              (fun cl => extractFirstArgKey cl.head == k)) ∧
    alookup (addClause db c).firstArgIndex "" = none := by
  have hcl : (addClause db c).clauses = db.clauses ++ [c] := rfl
  have hidx : (addClause db c).index
      = aappend db.index (extractFunctorArity c.head) db.clauses.length := rfl
  have hlen : (addClause db c).clauses.length = db.clauses.length + 1 := by
    rw [hcl]
    simp
  have hgetnew : (db.clauses ++ [c]).get? db.clauses.length = some c :=
    List.get?_concat_length db.clauses c
  have projIdx : ∀ k, (∀ i ∈ (alookup db.index k).getD [], i < db.clauses.length) := hv
  refine ⟨?_, ?_, ?_, ?_, ?_⟩
  · intro k i hi
    rw [hidx] at hi
    rw [hlen]
    by_cases hk : k = extractFunctorArity c.head
    · subst hk
      rw [alookup_aappend_self] at hi
      simp only [Option.getD_some] at hi
      rcases List.mem_append.mp hi with hold | hnew
      · exact Nat.lt_succ_of_lt (hv _ i hold)
      · simp only [List.mem_singleton] at hnew
        omega
    · rw [alookup_aappend_ne _ _ _ _ hk] at hi
      exact Nat.lt_succ_of_lt (hv k i hi)
  · intro k
    rw [hidx, hcl]
    by_cases hk : k = extractFunctorArity c.head
    · subst hk
      rw [alookup_aappend_self]
      simp only [Option.getD_some]
      rw [List.filterMap_append, filterMap_get_append_stable _ _ _ (projIdx _),
        hc, List.filter_append]
      simp [hgetnew]
    · rw [alookup_aappend_ne _ _ _ _ hk,
        filterMap_get_append_stable _ _ _ (projIdx _), hc, List.filter_append]
      have : (extractFunctorArity c.head == k) = false :=
        beq_eq_false_iff_ne.mpr (fun hh => hk hh.symm)
      simp [this]
  · intro k i hi
    rw [hlen]
    by_cases hf : extractFirstArgKey c.head ≠ ""
    · have hfa : (addClause db c).firstArgIndex
          = aappend db.firstArgIndex (extractFirstArgKey c.head) db.clauses.length := by
        simp [addClause, hf]
      rw [hfa] at hi
      by_cases hk : k = extractFirstArgKey c.head
      · subst hk
        rw [alookup_aappend_self] at hi
        simp only [Option.getD_some] at hi
        rcases List.mem_append.mp hi with hold | hnew
        · exact Nat.lt_succ_of_lt (hv2 _ i hold)
        · simp only [List.mem_singleton] at hnew
          omega
      · rw [alookup_aappend_ne _ _ _ _ hk] at hi
        exact Nat.lt_succ_of_lt (hv2 k i hi)
    · have hfa : (addClause db c).firstArgIndex = db.firstArgIndex := by
        simp only [not_not] at hf
        simp [addClause, hf]
      rw [hfa] at hi
      exact Nat.lt_succ_of_lt (hv2 k i hi)
  · intro k hk0
    rw [hcl]
    by_cases hf : extractFirstArgKey c.head ≠ ""
    · have hfa : (addClause db c).firstArgIndex
          = aappend db.firstArgIndex (extractFirstArgKey c.head) db.clauses.length := by
        simp [addClause, hf]
      rw [hfa]
      by_cases hk : k = extractFirstArgKey c.head
      · subst hk
        rw [alookup_aappend_self]
        simp only [Option.getD_some]
        rw [List.filterMap_append, filterMap_get_append_stable _ _ _ (hv2 _),
          hc2 _ hk0, List.filter_append]
        simp [hgetnew]
      · rw [alookup_aappend_ne _ _ _ _ hk,
          filterMap_get_append_stable _ _ _ (hv2 _), hc2 _ hk0, List.filter_append]
        have : (extractFirstArgKey c.head == k) = false :=
          beq_eq_false_iff_ne.mpr (fun hh => hk hh.symm)
        simp [this]
    · have hfz : extractFirstArgKey c.head = "" := by simpa using hf
      have hfa : (addClause db c).firstArgIndex = db.firstArgIndex := by
        simp [addClause, hfz]
      rw [hfa, filterMap_get_append_stable _ _ _ (hv2 _), hc2 _ hk0,
        List.filter_append]
      have : (extractFirstArgKey c.head == k) = false := by
        rw [hfz]
        exact beq_eq_false_iff_ne.mpr (fun hh => hk0 hh.symm)
      simp [this]
  · by_cases hf : extractFirstArgKey c.head ≠ ""
    · have hfa : (addClause db c).firstArgIndex
          = aappend db.firstArgIndex (extractFirstArgKey c.head) db.clauses.length := by
        simp [addClause, hf]
      rw [hfa, alookup_aappend_ne _ _ _ _ (fun hh => hf hh.symm)]
      exact he
    · have hfz : extractFirstArgKey c.head = "" := by simpa using hf
      have hfa : (addClause db c).firstArgIndex = db.firstArgIndex := by
        simp [addClause, hfz]
      rw [hfa]
      exact he

/-- Loading preserves the database invariant of `addClause_good`. -/
theorem foldl_addClause_good (cs : List Clause) : ∀ db : Database,
    ((∀ k i, i ∈ (alookup db.index k).getD [] → i < db.clauses.length) ∧
     (∀ k, ((alookup db.index k).getD []).filterMap (fun i => db.clauses.get? i)
           = db.clauses.filter (fun cl => extractFunctorArity cl.head == k)) ∧
     (∀ k i, i ∈ (alookup db.firstArgIndex k).getD [] → i < db.clauses.length) ∧
     (∀ k, k ≠ "" →
         ((alookup db.firstArgIndex k).getD []).filterMap (fun i => db.clauses.get? i)
           = db.clauses.filter (fun cl => extractFirstArgKey cl.head == k)) ∧
     alookup db.firstArgIndex "" = none) →
    (let db2 := cs.foldl addClause db
     (∀ k i, i ∈ (alookup db2.index k).getD [] → i < db2.clauses.length) ∧
     (∀ k, ((alookup db2.index k).getD []).filterMap (fun i => db2.clauses.get? i)
           = db2.clauses.filter (fun cl => extractFunctorArity cl.head == k)) ∧
     (∀ k i, i ∈ (alookup db2.firstArgIndex k).getD [] → i < db2.clauses.length) ∧
     (∀ k, k ≠ "" →
         ((alookup db2.firstArgIndex k).getD []).filterMap (fun i => db2.clauses.get? i)
           = db2.clauses.filter (fun cl => extractFirstArgKey cl.head == k)) ∧
     alookup db2.firstArgIndex "" = none) := by
  induction cs with
  | nil => intro db h; exact h
  | cons c rest ih =>
    intro db h
    exact ih (addClause db c)
      (addClause_good db c h.1 h.2.1 h.2.2.1 h.2.2.2.1 h.2.2.2.2)

/-- Loading appends the clauses in order. -/
theorem foldl_addClause_clauses (cs : List Clause) : ∀ db : Database,
    (cs.foldl addClause db).clauses = db.clauses ++ cs := by
  induction cs with
  | nil => intro db; simp
  | cons c rest ih =>
    intro db
    rw [List.foldl_cons, ih (addClause db c)]
    show (db.clauses ++ [c]) ++ rest = db.clauses ++ c :: rest
    simp

/-- Claim C8 (amended).  For every loaded database and every goal,
`findMatchingClauses` returns the full predicate list — all clauses whose
head has the goal's functor/arity key, in insertion order — regardless of
the goal's first argument; the first-argument index is consulted only by
`findClausesWithFirstArg`, which returns exactly the clauses carrying the
queried first-argument key (variable-headed clauses are not merged in),
and an empty key (variable or list argument) finds nothing. -/
theorem C8_amended (cs : List Clause) (g : Term) (f : String) (a : Nat) (t : Term) :
    findMatchingClauses (loadDb cs) g
      = cs.filter (fun c => extractFunctorArity c.head == extractFunctorArity g) ∧
    (makeFirstArgKey f a t ≠ "" →
      findClausesWithFirstArg (loadDb cs) f a t
        = cs.filter (fun c => extractFirstArgKey c.head == makeFirstArgKey f a t)) ∧
    (makeFirstArgKey f a t = "" → findClausesWithFirstArg (loadDb cs) f a t = []) := by
  have hbase :
      (∀ k i, i ∈ (alookup emptyDb.index k).getD [] → i < emptyDb.clauses.length) ∧
      (∀ k, ((alookup emptyDb.index k).getD []).filterMap
              (fun i => emptyDb.clauses.get? i)
            = emptyDb.clauses.filter (fun cl => extractFunctorArity cl.head == k)) ∧
      (∀ k i, i ∈ (alookup emptyDb.firstArgIndex k).getD []
          → i < emptyDb.clauses.length) ∧
      (∀ k, k ≠ "" →
          ((alookup emptyDb.firstArgIndex k).getD []).filterMap
              (fun i => emptyDb.clauses.get? i)
            = emptyDb.clauses.filter (fun cl => extractFirstArgKey cl.head == k)) ∧
      alookup emptyDb.firstArgIndex "" = none := by
    refine ⟨?_, ?_, ?_, ?_, ?_⟩ <;> simp [emptyDb, alookup]
  obtain ⟨hv, hc, hv2, hc2, he⟩ := foldl_addClause_good cs emptyDb hbase
  have hcl : (loadDb cs).clauses = cs := by
    rw [loadDb, foldl_addClause_clauses cs emptyDb]
    rfl
  refine ⟨?_, ?_, ?_⟩
  · rw [findMatchingClauses_eq]
    rw [show (cs.foldl addClause emptyDb) = loadDb cs from rfl] at hc
    rw [hc, hcl]
  · intro hne
    rw [findClausesWithFirstArg_eq]
    rw [show (cs.foldl addClause emptyDb) = loadDb cs from rfl] at hc2
    rw [hc2 _ hne, hcl]
  · intro hz
    rw [findClausesWithFirstArg_eq, hz]
    rw [show (cs.foldl addClause emptyDb) = loadDb cs from rfl] at he
    rw [he]
    rfl

/-- Witness for `C8_amended` at the concrete C8 inputs: the full
predicate list for goal `p(a)`, and the key-filtered list for the
first-argument lookup with `a`. -/
theorem C8_amended_witness :
    findMatchingClauses (loadDb [c8pa, c8pb]) c8goal
      = [c8pa, c8pb].filter
          (fun c => extractFunctorArity c.head == extractFunctorArity c8goal) ∧
    findClausesWithFirstArg (loadDb [c8pa, c8pb]) "p" 1 (.atom "a")
      = [c8pa, c8pb].filter
          (fun c => extractFirstArgKey c.head == makeFirstArgKey "p" 1 (.atom "a")) :=
  ⟨(C8_amended [c8pa, c8pb] c8goal "p" 1 (.atom "a")).1,
   (C8_amended [c8pa, c8pb] c8goal "p" 1 (.atom "a")).2.1 (by decide)⟩

/-- `slookup` on a cons cell. -/
theorem slookup_cons (p : String × Term) (rest : Subst) (k : String) :
    slookup (p :: rest) k = if p.1 == k then some p.2 else slookup rest k := by
  by_cases hp : p.1 = k
  · simp [slookup, List.find?, hp]
  · have hp2 : (p.1 == k) = false := by simp [hp]
    simp [slookup, List.find?, hp2]

/-- A key outside the key list is unbound. -/
theorem slookup_none_of_not_contains (s : Subst) (n : String)
    (h : (sKeys s).contains n = false) : slookup s n = none := by
  induction s with
  | nil => rfl
  | cons p rest ih =>
    simp only [sKeys, List.map_cons, List.contains_cons, Bool.or_eq_false_iff] at h
    have hp : (p.1 == n) = false := by
      rw [beq_eq_false_iff_ne]
      intro hh
      rw [beq_eq_false_iff_ne] at h
      exact h.1 hh.symm
    rw [slookup_cons]
    simp only [hp, Bool.false_eq_true, if_false]
    apply ih
    simpa [sKeys] using h.2

/-- `List.any` over keys agrees with `contains` on the key list. -/
theorem any_key_eq_contains (s : Subst) (k : String) :
    s.any (fun p => p.1 == k) = (sKeys s).contains k := by
  induction s with
  | nil => rfl
  | cons p rest ih =>
    simp only [List.any_cons, sKeys, List.map_cons, List.contains_cons]
    simp only [sKeys] at ih
    rw [← ih]
    by_cases hp : p.1 = k
    · rw [hp]
    · have h1 : (p.1 == k) = false := by simp [hp]
      have h2 : (k == p.1) = false := by simp [Ne.symm hp]
      rw [h1, h2]

/-- A bound value is in the range, hence inherits range avoidance. -/
theorem avoids_of_slookup (s : Subst) (doms : List String) (n : String) (u : Term)
    (hr : rangeAvoidsB s doms = true) (h : slookup s n = some u) :
    avoidsB doms u = true := by
  induction s with
  | nil => simp [slookup] at h
  | cons p rest ih =>
    simp only [rangeAvoidsB, List.all_cons, Bool.and_eq_true] at hr
    rw [slookup_cons] at h
    rcases hp : (p.1 == n) with _ | _
    · rw [hp] at h
      simp only [Bool.false_eq_true, if_false] at h
      exact ih hr.2 h
    · rw [hp] at h
      simp only [if_true] at h
      cases h
      exact hr.1

/-- Value pinning for `applySubstitution` on terms untouched by the
substitution: whenever it returns, it returns the term itself. -/
theorem applyN_pin_id (doms : List String) (s : Subst)
    (hsub : ∀ n, (sKeys s).contains n = true → doms.contains n = true) :
    ∀ fuel, (∀ t r, avoidsB doms t = true → applyN fuel s t = some r → r = t) ∧
      (∀ ts rs, avoidsL doms ts = true → applyListN fuel s ts = some rs → rs = ts) := by
  intro fuel
  induction fuel using Nat.strong_induction_on with
  | _ fuel ih =>
    match fuel with
    | 0 =>
      refine ⟨fun t r _ h => ?_, fun ts rs _ h => ?_⟩ <;> cases h
    | Nat.succ f =>
      constructor
      · intro t r hav happ
        match t with
        | .var n =>
          have hd : doms.contains n = false := by
            have : avoidsB doms (.var n) = !(doms.contains n) := rfl
            rw [this] at hav
            simpa using hav
          have hk : (sKeys s).contains n = false := by
            rcases hkk : (sKeys s).contains n with _ | _
            · rfl
            · exact absurd (hsub n hkk) (by rw [hd]; exact Bool.false_ne_true)
          rw [show applyN (f + 1) s (.var n)
              = (match slookup s n with
                 | some u => applyN f s u
                 | none => some (.var n)) from rfl,
            slookup_none_of_not_contains s n hk] at happ
          cases happ
          rfl
        | .compound fn args =>
          rw [applyN_succ_compound] at happ
          rcases hl : applyListN f s args with _ | ys
          · rw [hl] at happ; cases happ
          · rw [hl] at happ
            simp only [Option.map_some'] at happ
            cases happ
            have hargs : avoidsL doms args = true := by
              have : avoidsB doms (.compound fn args) = avoidsL doms args := rfl
              rw [this] at hav
              exact hav
            rw [(ih f (by omega)).2 args ys hargs hl]
        | .list es tl =>
          match tl with
          | some u =>
            rw [show applyN (f + 1) s (.list es (some u))
                = (match applyListN f s es, applyN f s u with
                   | some es2, some u2 => some (.list es2 (some u2))
                   | _, _ => none) from rfl] at happ
            rcases hl : applyListN f s es with _ | ys <;> rw [hl] at happ
            · cases happ
            · rcases hu : applyN f s u with _ | u2 <;> rw [hu] at happ
              · cases happ
              · simp only [Option.some.injEq] at happ
                have hav2 : avoidsL doms es = true ∧ avoidsB doms u = true := by
                  have : avoidsB doms (.list es (some u))
                      = (avoidsL doms es && avoidsB doms u) := rfl
                  rw [this] at hav
                  simpa using hav
                rw [← happ, (ih f (by omega)).2 es ys hav2.1 hl,
                  (ih f (by omega)).1 u u2 hav2.2 hu]
          | none =>
            rw [show applyN (f + 1) s (.list es none)
                = (applyListN f s es).map (fun es2 => Term.list es2 none) from rfl] at happ
            rcases hl : applyListN f s es with _ | ys <;> rw [hl] at happ
            · cases happ
            · simp only [Option.map_some'] at happ
              cases happ
              have hav2 : avoidsL doms es = true := by
                have : avoidsB doms (.list es none) = (avoidsL doms es && true) := rfl
                rw [this] at hav
                simpa using hav
              rw [(ih f (by omega)).2 es ys hav2 hl]
        | .atom a => cases happ; rfl
        | .int v => cases happ; rfl
        | .float v => cases happ; rfl
        | .str v => cases happ; rfl
      · intro ts rs hav happ
        match ts with
        | [] => cases happ; rfl
        | x :: xs =>
          rw [applyListN_succ_cons] at happ
          rcases hx : applyN f s x with _ | y <;> rw [hx] at happ
          · cases happ
          · rcases hxs : applyListN f s xs with _ | ys <;> rw [hxs] at happ
            · cases happ
            · simp only [Option.some.injEq] at happ
              have hav2 : avoidsB doms x = true ∧ avoidsL doms xs = true := by
                have : avoidsL doms (x :: xs) = (avoidsB doms x && avoidsL doms xs) := rfl
                rw [this] at hav
                simpa using hav
              rw [← happ, (ih f (by omega)).1 x y hav2.1 hx,
                (ih f (by omega)).2 xs ys hav2.2 hxs]

/-- Value pinning for `applySubstitution` under a non-self-interfering
substitution: whenever it returns, it returns the one-step parallel
substitution. -/
theorem applyN_pin_substOnce (doms : List String) (s : Subst)
    (hsub : ∀ n, (sKeys s).contains n = true → doms.contains n = true)
    (hr : rangeAvoidsB s doms = true) :
    ∀ fuel, (∀ t r, applyN fuel s t = some r → r = substOnce s t) ∧
      (∀ ts rs, applyListN fuel s ts = some rs → rs = substOnceL s ts) := by
  intro fuel
  induction fuel using Nat.strong_induction_on with
  | _ fuel ih =>
    match fuel with
    | 0 =>
      refine ⟨fun t r h => ?_, fun ts rs h => ?_⟩ <;> cases h
    | Nat.succ f =>
      constructor
      · intro t r happ
        match t with
        | .var n =>
          rcases hb : slookup s n with _ | u
          · rw [show applyN (f + 1) s (.var n)
                = (match slookup s n with
                   | some u => applyN f s u
                   | none => some (.var n)) from rfl, hb] at happ
            cases happ
            rw [show substOnce s (.var n)
              = (match slookup s n with | some u => u | none => .var n) from rfl, hb]
          · rw [applyN_var_bound f s n u hb] at happ
            have hu : avoidsB doms u = true := avoids_of_slookup s doms n u hr hb
            rw [(applyN_pin_id doms s hsub f).1 u r hu happ,
              show substOnce s (.var n)
                = (match slookup s n with | some u => u | none => .var n) from rfl, hb]
        | .compound fn args =>
          rw [applyN_succ_compound] at happ
          rcases hl : applyListN f s args with _ | ys <;> rw [hl] at happ
          · cases happ
          · simp only [Option.map_some'] at happ
            cases happ
            rw [(ih f (by omega)).2 args ys hl]
            rfl
        | .list es tl =>
          match tl with
          | some u =>
            rw [show applyN (f + 1) s (.list es (some u))
                = (match applyListN f s es, applyN f s u with
                   | some es2, some u2 => some (.list es2 (some u2))
                   | _, _ => none) from rfl] at happ
            rcases hl : applyListN f s es with _ | ys <;> rw [hl] at happ
            · cases happ
            · rcases hu : applyN f s u with _ | u2 <;> rw [hu] at happ
              · cases happ
              · simp only [Option.some.injEq] at happ
                rw [← happ, (ih f (by omega)).2 es ys hl, (ih f (by omega)).1 u u2 hu]
                rfl
          | none =>
            rw [show applyN (f + 1) s (.list es none)
                = (applyListN f s es).map (fun es2 => Term.list es2 none) from rfl] at happ
            rcases hl : applyListN f s es with _ | ys <;> rw [hl] at happ
            · cases happ
            · simp only [Option.map_some'] at happ
              cases happ
              rw [(ih f (by omega)).2 es ys hl]
              rfl
        | .atom a => cases happ; rfl
        | .int v => cases happ; rfl
        | .float v => cases happ; rfl
        | .str v => cases happ; rfl
      · intro ts rs happ
        match ts with
        | [] => cases happ; rfl
        | x :: xs =>
          rw [applyListN_succ_cons] at happ
          rcases hx : applyN f s x with _ | y <;> rw [hx] at happ
          · cases happ
          · rcases hxs : applyListN f s xs with _ | ys <;> rw [hxs] at happ
            · cases happ
            · simp only [Option.some.injEq] at happ
              rw [← happ, (ih f (by omega)).1 x y hx, (ih f (by omega)).2 xs ys hxs]
              rfl

/-- One-step substitution is the identity on terms that avoid the domain. -/
theorem substOnce_id (doms : List String) (s : Subst)
    (hsub : ∀ n, (sKeys s).contains n = true → doms.contains n = true) :
    ∀ (N : Nat) (t : Term), sizeOf t ≤ N → avoidsB doms t = true →
      substOnce s t = t := by
  intro N
  induction N using Nat.strong_induction_on with
  | _ N ih =>
    intro t hsz hav
    have hlist : ∀ (l : List Term), sizeOf l ≤ N → avoidsL doms l = true →
        substOnceL s l = l := by
      intro l
      induction l with
      | nil => intro _ _; rfl
      | cons x xs ihl =>
        intro hsz2 hav2
        have hcs : sizeOf (x :: xs) = 1 + sizeOf x + sizeOf xs := rfl
        rw [show avoidsL doms (x :: xs) = (avoidsB doms x && avoidsL doms xs) from rfl,
          Bool.and_eq_true] at hav2
        rw [show substOnceL s (x :: xs) = substOnce s x :: substOnceL s xs from rfl,
          ih (sizeOf x) (by omega) x le_rfl hav2.1, ihl (by omega) hav2.2]
    match t with
    | .var n =>
      have hd : doms.contains n = false := by
        have : avoidsB doms (.var n) = !(doms.contains n) := rfl
        rw [this] at hav
        simpa using hav
      have hk : (sKeys s).contains n = false := by
        rcases hkk : (sKeys s).contains n with _ | _
        · rfl
        · exact absurd (hsub n hkk) (by rw [hd]; exact Bool.false_ne_true)
      rw [show substOnce s (.var n)
          = (match slookup s n with | some u => u | none => .var n) from rfl,
        slookup_none_of_not_contains s n hk]
    | .compound fn args =>
      have hcs : sizeOf (Term.compound fn args) = 1 + sizeOf fn + sizeOf args := by
        simp
      rw [show substOnce s (.compound fn args)
          = .compound fn (substOnceL s args) from rfl,
        hlist args (by omega) hav]
    | .list es tl =>
      match tl with
      | some u =>
        have hcs : sizeOf (Term.list es (some u))
            = 1 + sizeOf es + (1 + sizeOf u) := by simp
        rw [show avoidsB doms (.list es (some u))
            = (avoidsL doms es && avoidsB doms u) from rfl, Bool.and_eq_true] at hav
        rw [show substOnce s (.list es (some u))
            = .list (substOnceL s es) (some (substOnce s u)) from rfl,
          hlist es (by omega) hav.1, ih (sizeOf u) (by omega) u le_rfl hav.2]
      | none =>
        have hcs : sizeOf (Term.list es none) = 1 + sizeOf es + 1 := by simp
        rw [show avoidsB doms (.list es none)
            = (avoidsL doms es && true) from rfl, Bool.and_true] at hav
        rw [show substOnce s (.list es none)
            = .list (substOnceL s es) none from rfl, hlist es (by omega) hav]
    | .atom a => rfl
    | .int v => rfl
    | .float v => rfl
    | .str v => rfl

/-- `slookup` distributes over append, first list first. -/
theorem slookup_append (s1 s2 : Subst) (n : String) :
    slookup (s1 ++ s2) n =
      (match slookup s1 n with
       | some u => some u
       | none => slookup s2 n) := by
  induction s1 with
  | nil => simp [slookup]
  | cons p rest ih =>
    rw [List.cons_append, slookup_cons, slookup_cons]
    rcases hp : (p.1 == n) with _ | _
    · simpa [hp] using ih
    · simp [hp]

/-- `contains` distributes over list append. -/
theorem contains_append (l1 l2 : List String) (m : String) :
    (l1 ++ l2).contains m = (l1.contains m || l2.contains m) := by
  induction l1 with
  | nil => simp
  | cons a rest ih =>
    rw [List.cons_append, List.contains_cons, List.contains_cons, ih, Bool.or_assoc]

/-- For non-interfering substitutions, one step of the concatenation
equals one step of `s1` followed by one step of `s2`. -/
theorem substOnce_append (s1 s2 : Subst) (hni : nonInterferingB s1 s2 = true) :
    ∀ (N : Nat) (t : Term), sizeOf t ≤ N →
      substOnce (s1 ++ s2) t = substOnce s2 (substOnce s1 t) := by
  rw [nonInterferingB, Bool.and_eq_true, Bool.and_eq_true] at hni
  obtain ⟨⟨hnd, hr1⟩, hr2⟩ := hni
  intro N
  induction N using Nat.strong_induction_on with
  | _ N ih =>
    intro t hsz
    have hlist : ∀ (l : List Term), sizeOf l ≤ N →
        substOnceL (s1 ++ s2) l = substOnceL s2 (substOnceL s1 l) := by
      intro l
      induction l with
      | nil => intro _; rfl
      | cons x xs ihl =>
        intro hsz2
        have hcs : sizeOf (x :: xs) = 1 + sizeOf x + sizeOf xs := rfl
        rw [show substOnceL (s1 ++ s2) (x :: xs)
            = substOnce (s1 ++ s2) x :: substOnceL (s1 ++ s2) xs from rfl,
          ih (sizeOf x) (by omega) x le_rfl, ihl (by omega)]
        rfl
    match t with
    | .var n =>
      rw [show substOnce (s1 ++ s2) (.var n)
          = (match slookup (s1 ++ s2) n with | some u => u | none => .var n) from rfl,
        slookup_append]
      rcases hb1 : slookup s1 n with _ | u
      · rw [show substOnce s1 (.var n)
            = (match slookup s1 n with | some u => u | none => .var n) from rfl, hb1]
        rfl
      · rw [show substOnce s1 (.var n)
            = (match slookup s1 n with | some u => u | none => .var n) from rfl, hb1]
        have hu : avoidsB (sKeys s1 ++ sKeys s2) u = true :=
          avoids_of_slookup s1 (sKeys s1 ++ sKeys s2) n u hr1 hb1
        rw [substOnce_id (sKeys s1 ++ sKeys s2) s2
          (fun m hm => by
            rw [contains_append, hm, Bool.or_true])
          (sizeOf u) u le_rfl hu]
    | .compound fn args =>
      have hcs : sizeOf (Term.compound fn args) = 1 + sizeOf fn + sizeOf args := by
        simp
      rw [show substOnce (s1 ++ s2) (.compound fn args)
          = .compound fn (substOnceL (s1 ++ s2) args) from rfl,
        hlist args (by omega)]
      rfl
    | .list es tl =>
      match tl with
      | some u =>
        have hcs : sizeOf (Term.list es (some u))
            = 1 + sizeOf es + (1 + sizeOf u) := by simp
        rw [show substOnce (s1 ++ s2) (.list es (some u))
            = .list (substOnceL (s1 ++ s2) es) (some (substOnce (s1 ++ s2) u)) from rfl,
          hlist es (by omega), ih (sizeOf u) (by omega) u le_rfl]
        rfl
      | none =>
        have hcs : sizeOf (Term.list es none) = 1 + sizeOf es + 1 := by simp
        rw [show substOnce (s1 ++ s2) (.list es none)
            = .list (substOnceL (s1 ++ s2) es) none from rfl, hlist es (by omega)]
        rfl
    | .atom a => rfl
    | .int v => rfl
    | .float v => rfl
    | .str v => rfl

/-- `subst[k] = v` on a fresh key appends the pair. -/
theorem supdate_append_fresh (s : Subst) (k : String) (v : Term)
    (h : (sKeys s).contains k = false) : supdate s k v = s ++ [(k, v)] := by
  rw [supdate, any_key_eq_contains, h]
  simp

/-- Pinning the first `compose` loop: under freshness and range avoidance
it can only append the `s1`-fixed images of `s2`. -/
theorem compose_foldl_pin (fuel : Nat) (s1 : Subst) (doms : List String)
    (hsub1 : ∀ n, (sKeys s1).contains n = true → doms.contains n = true) :
    ∀ (l : List (String × Term)) (acc res : Subst),
      (∀ p ∈ l, avoidsB doms p.2 = true) →
      (∀ p ∈ l, (sKeys acc).contains p.1 = false) →
      (l.map Prod.fst).Nodup →
      l.foldlM (fun acc p => do
        let v ← applyN fuel s1 p.2
        pure (supdate acc p.1 v)) acc = some res →
      res = acc ++ l := by
  intro l
  induction l with
  | nil =>
    intro acc res _ _ _ h
    cases h
    simp
  | cons p rest ih =>
    intro acc res hav hfresh hnd h
    rw [List.foldlM_cons] at h
    rcases hv : applyN fuel s1 p.2 with _ | v
    · rw [hv] at h
      cases h
    · rw [hv] at h
      have hvp : v = p.2 :=
        (applyN_pin_id doms s1 hsub1 fuel).1 p.2 v (hav p (by simp)) hv
      subst hvp
      have hupd : supdate acc p.1 p.2 = acc ++ [(p.1, p.2)] :=
        supdate_append_fresh acc p.1 p.2 (hfresh p (by simp))
      have h2 : List.foldlM (fun acc p => do
          let v ← applyN fuel s1 p.2
          pure (supdate acc p.1 v)) (supdate acc p.1 p.2) rest = some res := h
      rw [hupd] at h2
      simp only [List.map_cons, List.nodup_cons] at hnd
      have hres := ih (acc ++ [(p.1, p.2)]) res
        (fun q hq => hav q (by simp [hq]))
        (fun q hq => by
          rw [sKeys, List.map_append, contains_append]
          have h1 : (sKeys acc).contains q.1 = false := hfresh q (by simp [hq])
          have h2 : ([(p.1, p.2)].map Prod.fst).contains q.1 = false := by
            simp only [List.map_cons, List.map_nil, List.contains_cons,
              List.contains_nil, Bool.or_false]
            rw [beq_eq_false_iff_ne]
            intro hh
            exact hnd.1 (hh ▸ List.mem_map_of_mem Prod.fst hq)
          rw [sKeys] at h1
          rw [h1, h2]
          rfl)
        hnd.2 h2
      rw [hres]
      simp

/-- Pinning the second `compose` loop: applying `s2` to values it does not
touch maps every entry to itself. -/
theorem compose_mapM_pin (fuel : Nat) (s2 : Subst) (doms : List String)
    (hsub2 : ∀ n, (sKeys s2).contains n = true → doms.contains n = true) :
    ∀ (l res : List (String × Term)),
      (∀ p ∈ l, avoidsB doms p.2 = true) →
      l.mapM (fun p => do
        let v ← applyN fuel s2 p.2
        pure (p.1, v)) = some res →
      res = l := by
  intro l
  induction l with
  | nil =>
    intro res _ h
    cases h
    rfl
  | cons p rest ih =>
    intro res hav h
    rw [List.mapM_cons] at h
    rcases hv : applyN fuel s2 p.2 with _ | v
    · rw [hv] at h
      cases h
    · rw [hv] at h
      rcases hrest : rest.mapM (fun p => do
          let v ← applyN fuel s2 p.2
          pure (p.1, v)) with _ | rs
      · rw [hrest] at h
        cases h
      · rw [hrest] at h
        have h2 : some ((p.1, v) :: rs) = some res := h
        have hvp : v = p.2 :=
          (applyN_pin_id doms s2 hsub2 fuel).1 p.2 v (hav p (by simp)) hv
        have hrs : rs = rest := ih rs (fun q hq => hav q (by simp [hq])) hrest
        cases h2
        rw [hvp, hrs]


/-- Composing non-interfering substitutions concatenates them: both loops
of `Unification::compose` leave every entry untouched. -/
theorem composeN_pin (fuel : Nat) (s1 s2 : Subst)
    (hni : nonInterferingB s1 s2 = true) (C : Subst)
    (h : composeN fuel s1 s2 = some C) : C = s1 ++ s2 := by
  rw [nonInterferingB, Bool.and_eq_true, Bool.and_eq_true] at hni
  obtain ⟨⟨hnd, hr1⟩, hr2⟩ := hni
  rw [decide_eq_true_iff, List.nodup_append] at hnd
  have h0 : (do
      let step1 ← s2.foldlM (fun acc p => do
        let v ← applyN fuel s1 p.2
        pure (supdate acc p.1 v)) s1
      step1.mapM (fun p => do
        let v ← applyN fuel s2 p.2
        pure (p.1, v))) = some C := h
  rcases hfold : s2.foldlM (fun acc p => do
      let v ← applyN fuel s1 p.2
      pure (supdate acc p.1 v)) s1 with _ | step1
  · rw [hfold] at h0
    cases h0
  · rw [hfold] at h0
    have hmap : step1.mapM (fun p => do
        let v ← applyN fuel s2 p.2
        pure (p.1, v)) = some C := h0
    have hsub1 : ∀ n, (sKeys s1).contains n = true →
        (sKeys s1 ++ sKeys s2).contains n = true := by
      intro n hn
      rw [contains_append, hn]
      rfl
    have hsub2 : ∀ n, (sKeys s2).contains n = true →
        (sKeys s1 ++ sKeys s2).contains n = true := by
      intro n hn
      rw [contains_append, hn]
      simp
    have hav1 : ∀ p ∈ s1, avoidsB (sKeys s1 ++ sKeys s2) p.2 = true :=
      fun p hp => List.all_eq_true.mp hr1 p hp
    have hav2 : ∀ p ∈ s2, avoidsB (sKeys s1 ++ sKeys s2) p.2 = true :=
      fun p hp => List.all_eq_true.mp hr2 p hp
    have hstep1 : step1 = s1 ++ s2 := by
      refine compose_foldl_pin fuel s1 (sKeys s1 ++ sKeys s2) hsub1 s2 s1 step1
        hav2 ?_ hnd.2.1 hfold
      intro p hp
      have hmem : p.1 ∈ sKeys s2 := List.mem_map_of_mem Prod.fst hp
      have hnot : p.1 ∉ sKeys s1 := fun hx => hnd.2.2 hx hmem
      exact Bool.eq_false_iff.mpr (fun hc => hnot (by simpa using hc))
    rw [hstep1] at hmap
    refine compose_mapM_pin fuel s2 (sKeys s1 ++ sKeys s2) hsub2 (s1 ++ s2) C ?_ hmap
    intro p hp
    rcases List.mem_append.mp hp with h1 | h1
    · exact hav1 p h1
    · exact hav2 p h1

/-- C6 (amended): `compose` overwrites shared keys, so the composition
identity fails in general (see the counterexample); for non-interfering
substitutions — pairwise-distinct keys, no value mentioning a bound
variable — `compose(s1,s2)` is the concatenation `s1 ++ s2` and applying
it to any term equals applying `s1` and then `s2`. -/
theorem C6_amended (fc f1 f2 f3 : Nat) (s1 s2 : Subst) (t : Term)
    (hni : nonInterferingB s1 s2 = true)
    (C : Subst) (hc : composeN fc s1 s2 = some C)
    (r1 r2 r3 : Term)
    (h1 : applyN f1 s1 t = some r1)
    (h2 : applyN f2 s2 r1 = some r2)
    (h3 : applyN f3 C t = some r3) :
    C = s1 ++ s2 ∧ r3 = r2 := by
  have hC : C = s1 ++ s2 := composeN_pin fc s1 s2 hni C hc
  refine ⟨hC, ?_⟩
  subst hC
  have hni' := hni
  rw [nonInterferingB, Bool.and_eq_true, Bool.and_eq_true] at hni'
  obtain ⟨⟨hnd, hr1⟩, hr2⟩ := hni'
  have hsub1 : ∀ n, (sKeys s1).contains n = true →
      (sKeys s1 ++ sKeys s2).contains n = true := by
    intro n hn
    rw [contains_append, hn]
    rfl
  have hsub2 : ∀ n, (sKeys s2).contains n = true →
      (sKeys s1 ++ sKeys s2).contains n = true := by
    intro n hn
    rw [contains_append, hn]
    simp
  have hsubC : ∀ n, (sKeys (s1 ++ s2)).contains n = true →
      (sKeys s1 ++ sKeys s2).contains n = true := by
    intro n hn
    rw [sKeys, List.map_append] at hn
    exact hn
  have hrC : rangeAvoidsB (s1 ++ s2) (sKeys s1 ++ sKeys s2) = true := by
    rw [rangeAvoidsB, List.all_append]
    rw [rangeAvoidsB] at hr1 hr2
    rw [hr1, hr2]
    rfl
  have e1 : r1 = substOnce s1 t :=
    (applyN_pin_substOnce (sKeys s1 ++ sKeys s2) s1 hsub1 hr1 f1).1 t r1 h1
  have e2 : r2 = substOnce s2 r1 :=
    (applyN_pin_substOnce (sKeys s1 ++ sKeys s2) s2 hsub2 hr2 f2).1 r1 r2 h2
  have e3 : r3 = substOnce (s1 ++ s2) t :=
    (applyN_pin_substOnce (sKeys s1 ++ sKeys s2) (s1 ++ s2) hsubC hrC f3).1 t r3 h3
  rw [e3, e2, e1, substOnce_append s1 s2 hni (sizeOf t) t (Nat.le_refl _)]

theorem C6_amended_witness :
    [("X", Term.atom "a"), ("Y", Term.atom "b")] =
      [("X", Term.atom "a")] ++ [("Y", Term.atom "b")] ∧
    Term.atom "a" = Term.atom "a" :=
  C6_amended 5 5 5 5 [("X", Term.atom "a")] [("Y", Term.atom "b")] (Term.var "X")
    (by decide)
    [("X", Term.atom "a"), ("Y", Term.atom "b")] rfl
    (Term.atom "a") (Term.atom "a") (Term.atom "a") rfl rfl rfl

/-- Fuel monotonicity of `applySubstitution`: a result obtained with some
fuel is obtained with any larger fuel. -/
theorem applyN_mono (s : Subst) :
    ∀ f, (∀ g t r, applyN f s t = some r → f ≤ g → applyN g s t = some r) ∧
      (∀ g ts rs, applyListN f s ts = some rs → f ≤ g → applyListN g s ts = some rs) := by
  intro f
  induction f using Nat.strong_induction_on with
  | _ f ih =>
    match f with
    | 0 => refine ⟨fun g t r h _ => ?_, fun g ts rs h _ => ?_⟩ <;> cases h
    | Nat.succ f =>
      constructor
      · intro g t r h hle
        match g with
        | 0 => omega
        | Nat.succ g =>
          have hfg : f ≤ g := by omega
          match t with
          | .var n =>
            rw [applyN_succ_var] at h
            rw [applyN_succ_var]
            rcases hl : slookup s n with _ | u <;> rw [hl] at h
            · exact h
            · exact (ih f (by omega)).1 g u r h hfg
          | .compound fn args =>
            rw [applyN_succ_compound] at h
            rw [applyN_succ_compound]
            rcases hl : applyListN f s args with _ | ys <;> rw [hl] at h
            · cases h
            · rw [(ih f (by omega)).2 g args ys hl hfg]
              exact h
          | .list es tl =>
            match tl with
            | some u =>
              rw [show applyN (f + 1) s (.list es (some u))
                  = (match applyListN f s es, applyN f s u with
                     | some es2, some u2 => some (.list es2 (some u2))
                     | _, _ => none) from rfl] at h
              rw [show applyN (g + 1) s (.list es (some u))
                  = (match applyListN g s es, applyN g s u with
                     | some es2, some u2 => some (.list es2 (some u2))
                     | _, _ => none) from rfl]
              rcases hl : applyListN f s es with _ | ys <;> rw [hl] at h
              · cases h
              · rcases hu : applyN f s u with _ | u2 <;> rw [hu] at h
                · cases h
                · rw [(ih f (by omega)).2 g es ys hl hfg,
                    (ih f (by omega)).1 g u u2 hu hfg]
                  exact h
            | none =>
              rw [show applyN (f + 1) s (.list es none)
                  = (applyListN f s es).map (fun es2 => Term.list es2 none) from rfl] at h
              rw [show applyN (g + 1) s (.list es none)
                  = (applyListN g s es).map (fun es2 => Term.list es2 none) from rfl]
              rcases hl : applyListN f s es with _ | ys <;> rw [hl] at h
              · cases h
              · rw [(ih f (by omega)).2 g es ys hl hfg]
                exact h
          | .atom a => exact h
          | .int v => exact h
          | .float v => exact h
          | .str v => exact h
      · intro g ts rs h hle
        match g with
        | 0 => omega
        | Nat.succ g =>
          have hfg : f ≤ g := by omega
          match ts with
          | [] => exact h
          | x :: xs =>
            rw [applyListN_succ_cons] at h
            rw [applyListN_succ_cons]
            rcases hx : applyN f s x with _ | y <;> rw [hx] at h
            · cases h
            · rcases hxs : applyListN f s xs with _ | ys <;> rw [hxs] at h
              · cases h
              · rw [(ih f (by omega)).1 g x y hx hfg,
                  (ih f (by omega)).2 g xs ys hxs hfg]
                exact h

/-- A name missing from the association list has no binding. -/
theorem slookup_none_contains (s : Subst) (n : String)
    (h : slookup s n = none) : (sKeys s).contains n = false := by
  induction s with
  | nil => rfl
  | cons p rest ih =>
    rw [slookup_cons] at h
    rcases hp : (p.1 == n) with _ | _ <;> rw [hp] at h
    · have h2 : slookup rest n = none := by
        rw [if_neg Bool.false_ne_true] at h
        exact h
      have hrest := ih h2
      rw [sKeys] at hrest
      simp only [sKeys, List.map_cons, List.contains_cons]
      rw [hrest]
      have hq : (n == p.1) = false := by
        rcases hq2 : (n == p.1) with _ | _
        · rfl
        · rw [beq_iff_eq] at hq2
          rw [hq2] at hp
          simp at hp
      rw [hq]
      rfl
    · rw [if_pos rfl] at h
      cases h

/-- Whenever `applySubstitution` terminates, the result has no variable
still bound by the substitution: every remaining variable is unbound. -/
theorem applyN_avoids (s : Subst) :
    ∀ f, (∀ t r, applyN f s t = some r → avoidsB (sKeys s) r = true) ∧
      (∀ ts rs, applyListN f s ts = some rs → avoidsL (sKeys s) rs = true) := by
  intro f
  induction f using Nat.strong_induction_on with
  | _ f ih =>
    match f with
    | 0 => refine ⟨fun t r h => ?_, fun ts rs h => ?_⟩ <;> cases h
    | Nat.succ f =>
      constructor
      · intro t r h
        match t with
        | .var n =>
          rw [applyN_succ_var] at h
          rcases hl : slookup s n with _ | u <;> rw [hl] at h
          · cases h
            have hc : (sKeys s).contains n = false := slookup_none_contains s n hl
            have : avoidsB (sKeys s) (.var n) = !((sKeys s).contains n) := rfl
            rw [this, hc]
            rfl
          · exact (ih f (by omega)).1 u r h
        | .compound fn args =>
          rw [applyN_succ_compound] at h
          rcases hl : applyListN f s args with _ | ys <;> rw [hl] at h
          · cases h
          · simp only [Option.map_some'] at h
            cases h
            have : avoidsB (sKeys s) (.compound fn ys) = avoidsL (sKeys s) ys := rfl
            rw [this]
            exact (ih f (by omega)).2 args ys hl
        | .list es tl =>
          match tl with
          | some u =>
            rw [show applyN (f + 1) s (.list es (some u))
                = (match applyListN f s es, applyN f s u with
                   | some es2, some u2 => some (.list es2 (some u2))
                   | _, _ => none) from rfl] at h
            rcases hl : applyListN f s es with _ | ys <;> rw [hl] at h
            · cases h
            · rcases hu : applyN f s u with _ | u2 <;> rw [hu] at h
              · cases h
              · cases h
                have : avoidsB (sKeys s) (.list ys (some u2))
                    = (avoidsL (sKeys s) ys && avoidsB (sKeys s) u2) := rfl
                rw [this, (ih f (by omega)).2 es ys hl, (ih f (by omega)).1 u u2 hu]
                rfl
          | none =>
            rw [show applyN (f + 1) s (.list es none)
                = (applyListN f s es).map (fun es2 => Term.list es2 none) from rfl] at h
            rcases hl : applyListN f s es with _ | ys <;> rw [hl] at h
            · cases h
            · simp only [Option.map_some'] at h
              cases h
              have : avoidsB (sKeys s) (.list ys none)
                  = (avoidsL (sKeys s) ys && true) := rfl
              rw [this, (ih f (by omega)).2 es ys hl]
              rfl
        | .atom a => cases h; rfl
        | .int v => cases h; rfl
        | .float v => cases h; rfl
        | .str v => cases h; rfl
      · intro ts rs h
        match ts with
        | [] => cases h; rfl
        | x :: xs =>
          rw [applyListN_succ_cons] at h
          rcases hx : applyN f s x with _ | y <;> rw [hx] at h
          · cases h
          · rcases hxs : applyListN f s xs with _ | ys <;> rw [hxs] at h
            · cases h
            · cases h
              have : avoidsL (sKeys s) (y :: ys)
                  = (avoidsB (sKeys s) y && avoidsL (sKeys s) ys) := rfl
              rw [this, (ih f (by omega)).1 x y hx, (ih f (by omega)).2 xs ys hxs]
              rfl

/-- Unfolding `evaluateArithmeticExpression` at successor fuel. -/
theorem evalN_succ (f : Nat) (b : Subst) (expr : Term) :
    evalN (f + 1) b expr =
      (match applyN (f + 1) b expr with
       | none => none
       | some t => evalBody f b t) := rfl

/-- Fuel monotonicity of the evaluator body, given it for the recursive
calls. -/
theorem evalBody_mono (b : Subst) (f g : Nat)
    (ih : ∀ e v, evalN f b e = some v → evalN g b e = some v)
    (t : Term) (v : Option Q) (h : evalBody f b t = some v) :
    evalBody g b t = some v := by
  match t with
  | .compound fn args =>
    match args with
    | [] => exact h
    | [a1] =>
      have h2 : (match evalN f b a1 with
          | none => none
          | some w =>
            match w with
            | some vv =>
              if fn = "-" then some (some (qneg vv))
              else if fn = "abs" then some (some (qabs vv))
              else some none
            | none => some none) = some v := h
      show (match evalN g b a1 with
          | none => none
          | some w =>
            match w with
            | some vv =>
              if fn = "-" then some (some (qneg vv))
              else if fn = "abs" then some (some (qabs vv))
              else some none
            | none => some none) = some v
      rcases h1 : evalN f b a1 with _ | l <;> rw [h1] at h2
      · cases h2
      · rw [ih a1 l h1]
        exact h2
    | [a1, a2] =>
      have h2 : (match evalN f b a1, evalN f b a2 with
          | none, _ => none
          | _, none => none
          | some l, some r =>
            match l, r with
            | some lv, some rv =>
              if fn = "+" then some (some (qadd lv rv))
              else if fn = "-" then some (some (qsub lv rv))
              else if fn = "*" then some (some (qmul lv rv))
              else if fn = "/" then
                if qeq rv (Qi 0) then some none else some (some (qdiv lv rv))
              else if fn = "//" then
                if qeq rv (Qi 0) then some none
                else some (some (Qi (qfloor (qdiv lv rv))))
              else if fn = "mod" then
                if qeq rv (Qi 0) then some none else some (some (qfmod lv rv))
              else some none
            | _, _ => some none) = some v := h
      show (match evalN g b a1, evalN g b a2 with
          | none, _ => none
          | _, none => none
          | some l, some r =>
            match l, r with
            | some lv, some rv =>
              if fn = "+" then some (some (qadd lv rv))
              else if fn = "-" then some (some (qsub lv rv))
              else if fn = "*" then some (some (qmul lv rv))
              else if fn = "/" then
                if qeq rv (Qi 0) then some none else some (some (qdiv lv rv))
              else if fn = "//" then
                if qeq rv (Qi 0) then some none
                else some (some (Qi (qfloor (qdiv lv rv))))
              else if fn = "mod" then
                if qeq rv (Qi 0) then some none else some (some (qfmod lv rv))
              else some none
            | _, _ => some none) = some v
      rcases h1 : evalN f b a1 with _ | l <;>
        rcases hs : evalN f b a2 with _ | r <;>
          rw [h1, hs] at h2
      · cases h2
      · cases h2
      · cases h2
      · rw [ih a1 l h1, ih a2 r hs]
        exact h2
    | a1 :: a2 :: a3 :: rest => exact h
  | .var n => exact h
  | .atom a => exact h
  | .int v2 => exact h
  | .float v2 => exact h
  | .str v2 => exact h
  | .list es tl => exact h

/-- Fuel monotonicity of the arithmetic evaluator. -/
theorem evalN_mono (b : Subst) :
    ∀ f g e v, evalN f b e = some v → f ≤ g → evalN g b e = some v := by
  intro f
  induction f using Nat.strong_induction_on with
  | _ f ih =>
    match f with
    | 0 => exact fun g e v h _ => by cases h
    | Nat.succ f =>
      intro g e v h hle
      match g with
      | 0 => omega
      | Nat.succ g =>
        have hfg : f ≤ g := by omega
        rw [evalN_succ] at h
        rw [evalN_succ]
        rcases happ : applyN (f + 1) b e with _ | t <;> rw [happ] at h
        · cases h
        · rw [(applyN_mono b (f + 1)).1 (g + 1) e t happ (by omega)]
          have h2 : evalBody f b t = some v := h
          show evalBody g b t = some v
          exact evalBody_mono b f g
            (fun e2 v2 hh => ih f (by omega) g e2 v2 hh hfg) t v h2

/-- An expression that, after full substitution, still contains a variable
or a `/`, `//` or `mod` node with a zero divisor never evaluates to a
value: the evaluator answers failure (`some none`) or diverges (`none`),
at every fuel. -/
theorem evalN_bad (b : Subst) (f0 : Nat) :
    ∀ fuel e, avoidsB (sKeys b) e = true →
      (containsVarB e = true ∨ hasZeroDivB f0 b e = true) →
      ∀ q, evalN fuel b e ≠ some (some q) := by
  intro fuel
  induction fuel using Nat.strong_induction_on with
  | _ fuel ih =>
    match fuel with
    | 0 =>
      intro e _ _ q h
      cases h
    | Nat.succ f =>
      intro e hav hbad q hcontra
      rw [evalN_succ] at hcontra
      rcases happ : applyN (f + 1) b e with _ | t <;> rw [happ] at hcontra
      · cases hcontra
      · have ht : t = e := (applyN_pin_id (sKeys b) b (fun n hn => hn) (f + 1)).1
          e t hav happ
        rw [ht] at hcontra
        have hb : evalBody f b e = some (some q) := hcontra
        match e with
        | .var n => cases hb
        | .atom a => cases hb
        | .str sv => cases hb
        | .list es tl => cases hb
        | .int v2 =>
          rcases hbad with hc | hz
          · cases hc
          · cases hz
        | .float v2 =>
          rcases hbad with hc | hz
          · cases hc
          · cases hz
        | .compound fn args =>
          match args with
          | [] => cases hb
          | a1 :: a2 :: a3 :: rest => cases hb
          | [a1] =>
            have h2 : (match evalN f b a1 with
                | none => none
                | some w =>
                  match w with
                  | some vv =>
                    if fn = "-" then some (some (qneg vv))
                    else if fn = "abs" then some (some (qabs vv))
                    else some none
                  | none => some none) = some (some q) := hb
            have hava1 : avoidsB (sKeys b) a1 = true := by
              have e1 : avoidsB (sKeys b) (Term.compound fn [a1])
                  = (avoidsB (sKeys b) a1 && true) := rfl
              rw [e1, Bool.and_true] at hav
              exact hav
            have hbad1 : containsVarB a1 = true ∨ hasZeroDivB f0 b a1 = true := by
              rcases hbad with hc | hz
              · have e1 : containsVarB (Term.compound fn [a1])
                    = (containsVarB a1 || false) := rfl
                rw [e1, Bool.or_false] at hc
                exact Or.inl hc
              · have e1 : hasZeroDivB f0 b (Term.compound fn [a1])
                    = ((decide (fn = "/" ∨ fn = "//" ∨ fn = "mod") && false)
                        || (hasZeroDivB f0 b a1 || false)) := rfl
                rw [e1, Bool.and_false, Bool.false_or, Bool.or_false] at hz
                exact Or.inr hz
            rcases h1 : evalN f b a1 with _ | w <;> rw [h1] at h2
            · cases h2
            · match w with
              | none => cases h2
              | some vv => exact (ih f (by omega) a1 hava1 hbad1 vv h1).elim
          | [a1, a2] =>
            have h2 : (match evalN f b a1, evalN f b a2 with
                | none, _ => none
                | _, none => none
                | some l, some r =>
                  match l, r with
                  | some lv, some rv =>
                    if fn = "+" then some (some (qadd lv rv))
                    else if fn = "-" then some (some (qsub lv rv))
                    else if fn = "*" then some (some (qmul lv rv))
                    else if fn = "/" then
                      if qeq rv (Qi 0) then some none else some (some (qdiv lv rv))
                    else if fn = "//" then
                      if qeq rv (Qi 0) then some none
                      else some (some (Qi (qfloor (qdiv lv rv))))
                    else if fn = "mod" then
                      if qeq rv (Qi 0) then some none else some (some (qfmod lv rv))
                    else some none
                  | _, _ => some none) = some (some q) := hb
            have hargs : avoidsB (sKeys b) a1 = true ∧ avoidsB (sKeys b) a2 = true := by
              have e1 : avoidsB (sKeys b) (Term.compound fn [a1, a2])
                  = (avoidsB (sKeys b) a1 && (avoidsB (sKeys b) a2 && true)) := rfl
              rw [e1] at hav
              simp only [Bool.and_eq_true] at hav
              exact ⟨hav.1, hav.2.1⟩
            rcases h1 : evalN f b a1 with _ | l <;>
              rcases hs : evalN f b a2 with _ | r <;> rw [h1, hs] at h2
            · cases h2
            · cases h2
            · cases h2
            · match l with
              | none => cases h2
              | some lv =>
                match r with
                | none => cases h2
                | some rv =>
                  have h3 : (if fn = "+" then some (some (qadd lv rv))
                      else if fn = "-" then some (some (qsub lv rv))
                      else if fn = "*" then some (some (qmul lv rv))
                      else if fn = "/" then
                        if qeq rv (Qi 0) then some none else some (some (qdiv lv rv))
                      else if fn = "//" then
                        if qeq rv (Qi 0) then some none
                        else some (some (Qi (qfloor (qdiv lv rv))))
                      else if fn = "mod" then
                        if qeq rv (Qi 0) then some none else some (some (qfmod lv rv))
                      else some none) = some (some q) := h2
                  rcases hbad with hc | hz
                  · have e1 : containsVarB (Term.compound fn [a1, a2])
                        = (containsVarB a1 || (containsVarB a2 || false)) := rfl
                    rw [e1, Bool.or_false, Bool.or_eq_true] at hc
                    rcases hc with hc1 | hc2
                    · exact (ih f (by omega) a1 hargs.1 (Or.inl hc1) lv h1).elim
                    · exact (ih f (by omega) a2 hargs.2 (Or.inl hc2) rv hs).elim
                  · have e1 : hasZeroDivB f0 b (Term.compound fn [a1, a2])
                        = ((decide (fn = "/" ∨ fn = "//" ∨ fn = "mod") &&
                            (match evalN f0 b a2 with
                             | some (some q2) => qeq q2 (Qi 0)
                             | _ => false))
                           || (hasZeroDivB f0 b a1 || (hasZeroDivB f0 b a2 || false))) := rfl
                    rw [e1, Bool.or_eq_true] at hz
                    rcases hz with htop | hrec
                    · rw [Bool.and_eq_true] at htop
                      obtain ⟨hfn, hzero⟩ := htop
                      rcases hg : evalN f0 b a2 with _ | w0 <;> rw [hg] at hzero
                      · cases hzero
                      · match w0 with
                        | none => cases hzero
                        | some q0 =>
                          have hm1 : evalN (max f f0) b a2 = some (some rv) :=
                            evalN_mono b f (max f f0) a2 (some rv) hs (Nat.le_max_left f f0)
                          have hm2 : evalN (max f f0) b a2 = some (some q0) :=
                            evalN_mono b f0 (max f f0) a2 (some q0) hg (Nat.le_max_right f f0)
                          have hrq : rv = q0 := by
                            rw [hm1] at hm2
                            injection hm2 with h3
                            injection h3 with h4
                          have hq0 : qeq rv (Qi 0) = true := by
                            rw [hrq]
                            exact hzero
                          rcases of_decide_eq_true hfn with h5 | h5 | h5 <;> subst h5
                          · have n1 : ¬ ("/" : String) = "+" := by decide
                            have n2 : ¬ ("/" : String) = "-" := by decide
                            have n3 : ¬ ("/" : String) = "*" := by decide
                            rw [if_neg n1, if_neg n2, if_neg n3, if_pos rfl,
                              if_pos hq0] at h3
                            cases h3
                          · have n1 : ¬ ("//" : String) = "+" := by decide
                            have n2 : ¬ ("//" : String) = "-" := by decide
                            have n3 : ¬ ("//" : String) = "*" := by decide
                            have n4 : ¬ ("//" : String) = "/" := by decide
                            rw [if_neg n1, if_neg n2, if_neg n3, if_neg n4, if_pos rfl,
                              if_pos hq0] at h3
                            cases h3
                          · have n1 : ¬ ("mod" : String) = "+" := by decide
                            have n2 : ¬ ("mod" : String) = "-" := by decide
                            have n3 : ¬ ("mod" : String) = "*" := by decide
                            have n4 : ¬ ("mod" : String) = "/" := by decide
                            have n5 : ¬ ("mod" : String) = "//" := by decide
                            rw [if_neg n1, if_neg n2, if_neg n3, if_neg n4, if_neg n5,
                              if_pos rfl, if_pos hq0] at h3
                            cases h3
                    · rw [Bool.or_false, Bool.or_eq_true] at hrec
                      rcases hrec with hz1 | hz2
                      · exact (ih f (by omega) a1 hargs.1 (Or.inr hz1) lv h1).elim
                      · exact (ih f (by omega) a2 hargs.2 (Or.inr hz2) rv hs).elim

/-- C9: arithmetic errors fail silently.  If the right-hand expression of
`is/2`, after substitution, still contains a variable (an unbound one, as
shown by `applyN_avoids`) or a `/`, `//` or `mod` node whose second
operand evaluates to zero, then whenever the `is` handler returns at all
it returns `(false, st)`: the continuation is never invoked (no solution)
and the state — in particular the solution list — is untouched (nothing
is thrown; the C++ handler just returns `false`). -/
theorem C9_arith_fails_silently (f f0 : Nat) (b : Subst) (lhs rhs : Term)
    (k : Cont) (st : RState) (e : Term)
    (he : applyN f b rhs = some e)
    (hbad : containsVarB e = true ∨ hasZeroDivB f0 b e = true)
    (r : Bool × RState)
    (h : isH f [lhs, rhs] b k st = some r) :
    r = (false, st) := by
  have h0 : (match applyN f b lhs, applyN f b rhs with
      | some left, some right =>
        match evalN f b right with
        | none => none
        | some none => some (false, st)
        | some (some q) =>
          match unifyWithNumberN f left q b with
          | none => none
          | some (ok, b2) => if ok then k b2 st else some (false, st)
      | _, _ => none) = some r := h
  rcases hl : applyN f b lhs with _ | left <;> rw [hl, he] at h0
  · cases h0
  · have hav : avoidsB (sKeys b) e = true := (applyN_avoids b f).1 rhs e he
    have h1 : (match evalN f b e with
        | none => none
        | some none => some (false, st)
        | some (some q) =>
          match unifyWithNumberN f left q b with
          | none => none
          | some (ok, b2) => if ok then k b2 st else some (false, st)) = some r := h0
    rcases hev : evalN f b e with _ | w <;> rw [hev] at h1
    · cases h1
    · match w with
      | none =>
        injection h1 with h2
        exact h2.symm
      | some q => exact (evalN_bad b f0 f e hav hbad q hev).elim

theorem C9_witness :
    isH 5 [Term.var "X", c9rhs] [] contTrue st0 = some (false, st0) ∧
      ((false, st0) : Bool × RState) = (false, st0) :=
  ⟨rfl, C9_arith_fails_silently 5 5 [] (Term.var "X") c9rhs contTrue st0 c9rhs rfl
    (Or.inr (by decide)) (false, st0) rfl⟩

end CppProlog
